import Mathlib

/-!
Shallow embedding of the ekam build driver core (src/Driver.h, src/Driver.cpp)
and proofs about it.

The embedding models the class Driver and its inner class ActionDriver.
External collaborators (File, Action, ActionFactory, Dashboard, EventManager)
are represented only at their boundary:
  - a File handle is an opaque identifier FileId; clone produces a handle to the
    same path, so a clone is the same FileId;
  - an Action is opaque; its interactions with the driver go through the
    BuildContext operations modelled below;
  - the Dashboard task of each ActionDriver is modelled by the fields task and
    taskOutput of the ActionDriver record;
  - the EventManager supplies asynchronous callbacks; a callback that was
    enqueued is modelled by a Bool result, the event-loop turns themselves by
    the Turn relation below.

C++ unordered_map is modelled by an association list (helpers lookupA, insertA,
eraseA), unordered_multimap by a list of pairs (helper bucketOf), and the
OwnedPtrVector collections by lists of driver identifiers.
-/

namespace Ekam

abbrev EntityId := Nat
abbrev FileId := Nat
abbrev FactoryId := Nat
abbrev DriverId := Nat

/-- Lookup in an association list, mirroring unordered_map find. -/
def lookupA {β : Type} (m : List (Nat × β)) (k : Nat) : Option β :=
  match m with
  | [] => none
  | (k₀, v₀) :: rest => if k₀ = k then some v₀ else lookupA rest k

/-- Insert or overwrite in an association list, mirroring map[k] = v. -/
def insertA {β : Type} (m : List (Nat × β)) (k : Nat) (v : β) : List (Nat × β) :=
  match m with
  | [] => [(k, v)]
  | (k₀, v₀) :: rest => if k₀ = k then (k, v) :: rest else (k₀, v₀) :: insertA rest k v

/-- Erase a key from an association list, mirroring map.erase(k). -/
def eraseA {β : Type} (m : List (Nat × β)) (k : Nat) : List (Nat × β) :=
  m.filter (fun p => p.1 ≠ k)

/-- Bucket of a multimap: the values stored under one key, in list order,
mirroring equal_range of unordered_multimap. -/
def bucketOf (m : List (Nat × Nat)) (k : Nat) : List Nat :=
  (m.filter (fun p => p.1 = k)).map (fun p => p.2)

/-- The enum of Driver.cpp lines 107..113. -/
inductive DState
  | pending
  | running
  | succeeded
  | passed
  | failed
deriving DecidableEq

/-- Dashboard task states used by Driver.cpp (Dashboard is external). -/
inductive TaskState
  | pending
  | running
  | blocked
  | success
  | passed
  | failed
deriving DecidableEq

/-- struct Provision of Driver.cpp lines 124..127: an owned File together with
the entity ids this file provides. -/
structure Provision where
  file : FileId
  entities : List EntityId
deriving DecidableEq

/-- The mutable per-action fields of class Driver::ActionDriver.  The Dashboard
task handle is modelled by the fields task and taskOutput. -/
structure ActionDriver where
  state : DState
  task : TaskState
  taskOutput : List String
  tmpdir : FileId
  missingDependencies : List (EntityId × String)
  provisions : List Provision
  outputs : List FileId
deriving DecidableEq

instance : Inhabited ActionDriver :=
  ⟨{ state := DState.pending, task := TaskState.pending, taskOutput := [],
     tmpdir := 0, missingDependencies := [], provisions := [], outputs := [] }⟩

/-- The mutable fields of class Driver (Driver.h lines 59..86).  Drivers are
named by DriverId; the field drivers maps each id to its record, and the
ownership collections (activeActions, pendingActions, blockedActionPtrs) hold
ids.  nextId is the allocator for fresh driver ids. -/
structure DriverState where
  src : FileId
  tmp : FileId
  maxConcurrentActions : Nat
  triggers : List (EntityId × FactoryId)
  entityMap : List (EntityId × FileId)
  filePtrs : List FileId
  activeActions : List DriverId
  pendingActions : List DriverId
  blockedActions : List (EntityId × DriverId)
  blockedActionPtrs : List DriverId
  drivers : List (DriverId × ActionDriver)
  nextId : DriverId
deriving DecidableEq

/-- Environment of external collaborators: factory behavior and File
operations.  tryMakeAction says whether a factory synthesizes an action when a
trigger is offered (id, file); parent and relative are the File operations used
by the ActionDriver constructor and newOutput; scanned gives, for a discovery
scan rooted at a (src, tmp) pair, the (srcFile, tmpLocation) pairs for which
some factory produced an action (the recursive tree walk itself lives in the
external File interface). -/
structure Env where
  tryMakeAction : FactoryId → EntityId → FileId → Bool
  parent : FileId → FileId
  relative : FileId → String → FileId
  scanned : FileId → FileId → List (FileId × FileId)

def getDriver (st : DriverState) (d : DriverId) : ActionDriver :=
  (lookupA st.drivers d).getD default

def setDriver (st : DriverState) (d : DriverId) (a : ActionDriver) : DriverState :=
  { st with drivers := insertA st.drivers d a }

/-- Destruction of an ActionDriver: its record disappears. -/
def destroyDriver (st : DriverState) (d : DriverId) : DriverState :=
  { st with drivers := eraseA st.drivers d }

def errNotRunning : String := "Action is not running."

def errReportedSuccess : String := "Action reported success despite missing dependencies."

/-- Driver::queueNewAction (Driver.cpp lines 436..444): begin a Dashboard task,
allocate a fresh ActionDriver (whose constructor, lines 138..144, takes the
parent of tmpLocation as its tmpdir and starts in state PENDING), and adopt it
at the back of the pending queue. -/
def queueNewAction (env : Env) (st : DriverState) (tmpLocation : FileId) : DriverState :=
  let a : ActionDriver :=
    { state := DState.pending, task := TaskState.pending, taskOutput := [],
      tmpdir := env.parent tmpLocation, missingDependencies := [],
      provisions := [], outputs := [] }
  { st with drivers := insertA st.drivers st.nextId a,
            pendingActions := st.pendingActions ++ [st.nextId],
            nextId := st.nextId + 1 }

/-- Queue one new action per discovered (srcFile, tmpLocation) pair. -/
def queueScanned (env : Env) (st : DriverState) : List (FileId × FileId) → DriverState
  | [] => st
  | p :: rest => queueScanned env (queueNewAction env st p.2) rest

/-- Driver::scanForActions (Driver.cpp lines 394..434).  Modelled from the
spec: the recursive source tree walk (isDirectory, list, createDirectory,
relative) belongs to the external File interface, so the walk is abstracted by
env.scanned, the list of pairs for which a registered factory produced an
action; each produces a queueNewAction call, in walk order. -/
def scanForActions (env : Env) (st : DriverState) (src : FileId) (tmp : FileId) : DriverState :=
  queueScanned env st (env.scanned src tmp)

/-- Driver::addActionFactory (Driver.cpp lines 356..364): register the trigger
entities the factory enumerates.  The name registry is advisory and external. -/
def addActionFactory (st : DriverState) (fac : FactoryId) (triggerEntities : List EntityId) :
    DriverState :=
  { st with triggers := st.triggers ++ triggerEntities.map (fun i => (i, fac)) }

/-- ActionDriver::start (Driver.cpp lines 149..159): state becomes RUNNING and
the Dashboard task is set RUNNING; the StartCallback that later invokes the
action is an event-loop turn. -/
def startDriver (st : DriverState) (d : DriverId) : DriverState :=
  setDriver st d { getDriver st d with state := DState.running, task := TaskState.running }

/-- The while loop of Driver::startSomeActions, processing the pending queue
back to front (the argument list is the reversed pending queue); returns the
drivers started, in start order. -/
def startGo (st : DriverState) : List DriverId → DriverState × List DriverId
  | [] => (st, [])
  | d :: rest =>
    if st.activeActions.length < st.maxConcurrentActions then
      let st₁ := startDriver { st with activeActions := st.activeActions ++ [d] } d
      let r := startGo st₁ rest
      (r.1, d :: r.2)
    else
      ({ st with pendingActions := (d :: rest).reverse }, [])

/-- Driver::startSomeActions (Driver.cpp lines 371..385): while the active set
is below maxConcurrentActions and pending is non-empty, releaseBack the pending
queue, adoptBack into the active set, and start the driver. -/
def startSomeActions (st : DriverState) : DriverState × List DriverId :=
  startGo { st with pendingActions := [] } st.pendingActions.reverse

/-- ActionDriver::findOptionalProvider (Driver.cpp lines 170..178): after
ensureRunning, a pure lookup in entityMap. -/
def findOptionalProvider (st : DriverState) (d : DriverId) (id : EntityId) :
    Except String (Option FileId) :=
  if (getDriver st d).state = DState.running then
    Except.ok (lookupA st.entityMap id)
  else
    Except.error errNotRunning

/-- ActionDriver::findProvider (Driver.cpp lines 161..168): the optional
lookup; when it yields nothing, record (id, title) in missingDependencies. -/
def findProvider (st : DriverState) (d : DriverId) (id : EntityId) (title : String) :
    Except String (DriverState × Option FileId) :=
  if (getDriver st d).state = DState.running then
    match findOptionalProvider st d id with
    | Except.error e => Except.error e
    | Except.ok none =>
        let a := getDriver st d
        Except.ok
          (setDriver st d
            { a with missingDependencies := insertA a.missingDependencies id title }, none)
    | Except.ok (some f) => Except.ok (st, some f)
  else
    Except.error errNotRunning

/-- ActionDriver::provide (Driver.cpp lines 180..189): clone the file (same
FileId) and adoptBack the provision. -/
def provide (st : DriverState) (d : DriverId) (f : FileId) (entities : List EntityId) :
    Except String DriverState :=
  if (getDriver st d).state = DState.running then
    let a := getDriver st d
    Except.ok (setDriver st d { a with provisions := a.provisions ++ [⟨f, entities⟩] })
  else
    Except.error errNotRunning

/-- ActionDriver::log (Driver.cpp lines 191..194). -/
def logText (st : DriverState) (d : DriverId) (text : String) : Except String DriverState :=
  if (getDriver st d).state = DState.running then
    let a := getDriver st d
    Except.ok (setDriver st d { a with taskOutput := a.taskOutput ++ [text] })
  else
    Except.error errNotRunning

/-- ActionDriver::newOutput (Driver.cpp lines 196..202): a file handle at
tmpdir/basename is appended to outputs and a clone of it returned. -/
def newOutput (env : Env) (st : DriverState) (d : DriverId) (basename : String) :
    Except String (DriverState × FileId) :=
  if (getDriver st d).state = DState.running then
    let a := getDriver st d
    let f := env.relative a.tmpdir basename
    Except.ok (setDriver st d { a with outputs := a.outputs ++ [f] }, f)
  else
    Except.error errNotRunning

/-- ActionDriver::success (Driver.cpp lines 204..213): ensureRunning, then fail
if missingDependencies is non-empty, else transition to SUCCEEDED and enqueue
the completion callback (the Bool result records that the callback was
enqueued). -/
def success (st : DriverState) (d : DriverId) : Except String (DriverState × Bool) :=
  if (getDriver st d).state = DState.running then
    if (getDriver st d).missingDependencies = [] then
      Except.ok (setDriver st d { getDriver st d with state := DState.succeeded }, true)
    else
      Except.error errReportedSuccess
  else
    Except.error errNotRunning

/-- ActionDriver::passed (Driver.cpp lines 215..224). -/
def passed (st : DriverState) (d : DriverId) : Except String (DriverState × Bool) :=
  if (getDriver st d).state = DState.running then
    if (getDriver st d).missingDependencies = [] then
      Except.ok (setDriver st d { getDriver st d with state := DState.passed }, true)
    else
      Except.error errReportedSuccess
  else
    Except.error errNotRunning

/-- ActionDriver::failed (Driver.cpp lines 226..230). -/
def failed (st : DriverState) (d : DriverId) : Except String (DriverState × Bool) :=
  if (getDriver st d).state = DState.running then
    Except.ok (setDriver st d { getDriver st d with state := DState.failed }, true)
  else
    Except.error errNotRunning

/-- ActionDriver::threwException and threwUnknownException (Driver.cpp lines
244..256): append the diagnostic to the task output and, if still RUNNING,
transition to FAILED with a completion callback enqueued. -/
def threwException (st : DriverState) (d : DriverId) (diag : String) : DriverState × Bool :=
  let a := getDriver st d
  if a.state = DState.running then
    (setDriver st d
      { a with taskOutput := a.taskOutput ++ [diag], state := DState.failed }, true)
  else
    (setDriver st d { a with taskOutput := a.taskOutput ++ [diag] }, false)

/-- Observable events of a finalize, in program order: entityMap publication,
one unblock per waiter found in the bucket of an id, one trigger per factory
registered on an id, one scan per output file, and EventGroup cancellation. -/
inductive Event
  | publish (id : EntityId) (f : FileId)
  | unblock (id : EntityId) (w : DriverId)
  | trigger (id : EntityId) (f : FileId) (fac : FactoryId)
  | scan (f : FileId)
  | cancelGroup (d : DriverId)
deriving DecidableEq

/-- The loop over one BlockingIndex bucket (Driver.cpp lines 301..315): each
waiter loses the id from its missingDependencies; a waiter whose map becomes
empty is released from blockedActionPtrs and adopted at the back of the pending
queue.  Returns the promoted drivers in bucket order. -/
def unblockGo (st : DriverState) (id : EntityId) : List DriverId → DriverState × List DriverId
  | [] => (st, [])
  | w :: rest =>
    let a := getDriver st w
    let a' := { a with missingDependencies := eraseA a.missingDependencies id }
    let st₁ := setDriver st w a'
    if a'.missingDependencies = [] then
      if w ∈ st₁.blockedActionPtrs then
        let st₂ := { st₁ with blockedActionPtrs := st₁.blockedActionPtrs.erase w,
                              pendingActions := st₁.pendingActions ++ [w] }
        let r := unblockGo st₂ id rest
        (r.1, w :: r.2)
      else
        unblockGo st₁ id rest
    else
      unblockGo st₁ id rest

/-- The unblock step for one published entity id (Driver.cpp lines 300..316):
drain the bucket of the id, then erase the whole bucket from blockedActions. -/
def unblockForEntity (st : DriverState) (id : EntityId) : DriverState × List DriverId :=
  let r := unblockGo st id (bucketOf st.blockedActions id)
  ({ r.1 with blockedActions := r.1.blockedActions.filter (fun p => p.1 ≠ id) }, r.2)

/-- The trigger loop for one published entity id (Driver.cpp lines 318..327):
offer (id, file) to every factory registered on id; a factory that makes an
action has it queued via queueNewAction with src = tmp = the providing file. -/
def fireTriggersGo (env : Env) (st : DriverState) (id : EntityId) (f : FileId) :
    List FactoryId → DriverState × List Event
  | [] => (st, [])
  | fac :: rest =>
    let st₁ := if env.tryMakeAction fac id f then queueNewAction env st f else st
    let r := fireTriggersGo env st₁ id f rest
    (r.1, Event.trigger id f fac :: r.2)

def fireTriggers (env : Env) (st : DriverState) (id : EntityId) (f : FileId) :
    DriverState × List Event :=
  fireTriggersGo env st id f (bucketOf st.triggers id)

/-- Processing of one entity id of one provision in the commit loop (Driver.cpp
lines 296..329): publish into entityMap, drain the BlockingIndex bucket, then
fire the triggers for this id. -/
def processEntity (env : Env) (st : DriverState) (f : FileId) (id : EntityId) :
    DriverState × List Event :=
  let st₁ := { st with entityMap := insertA st.entityMap id f }
  let ws := bucketOf st₁.blockedActions id
  let st₂ := (unblockForEntity st₁ id).1
  let r := fireTriggers env st₂ id f
  (r.1, Event.publish id f :: (ws.map (fun w => Event.unblock id w) ++ r.2))

def processEntities (env : Env) (st : DriverState) (f : FileId) :
    List EntityId → DriverState × List Event
  | [] => (st, [])
  | id :: rest =>
    let r₁ := processEntity env st f id
    let r₂ := processEntities env r₁.1 f rest
    (r₂.1, r₁.2 ++ r₂.2)

/-- The commit loop over provisions (Driver.cpp lines 292..330): for each
provision, the File is adopted into filePtrs and every entity id of the
provision is processed in order. -/
def processProvisions (env : Env) (st : DriverState) :
    List Provision → DriverState × List Event
  | [] => (st, [])
  | p :: rest =>
    let st₀ := { st with filePtrs :=
                  if p.file ∈ st.filePtrs then st.filePtrs else st.filePtrs ++ [p.file] }
    let r₁ := processEntities env st₀ p.file p.entities
    let r₂ := processProvisions env r₁.1 rest
    (r₂.1, r₁.2 ++ r₂.2)

/-- The output rescan loop (Driver.cpp lines 332..335): run scanForActions on
each output, with the output as both src and tmp. -/
def scanOutputs (env : Env) (st : DriverState) : List FileId → DriverState × List Event
  | [] => (st, [])
  | o :: rest =>
    let st₁ := scanForActions env st o o
    let r := scanOutputs env st₁ rest
    (r.1, Event.scan o :: r.2)

/-- ActionDriver::returned (Driver.cpp lines 258..340), the finalize run by the
completion callback.  Remove self from the active set; if missingDependencies
is non-empty, roll back to BLOCKED (state PENDING, EventGroup cancelled,
provisions and outputs discarded, Dashboard task BLOCKED, self adopted into the
blocked set with one forward edge per missing entity id); else if the state is
SUCCEEDED or PASSED, commit (Dashboard state, provision loop, output rescan)
and the driver is destroyed (its destructor cancels the EventGroup); else the
Dashboard task is marked FAILED and the driver is destroyed. -/
def returned (env : Env) (st : DriverState) (d : DriverId) : DriverState × List Event :=
  let a := getDriver st d
  let st₁ := { st with activeActions := st.activeActions.erase d }
  if a.missingDependencies = [] then
    if a.state = DState.succeeded ∨ a.state = DState.passed then
      let a' := { a with task :=
                    if a.state = DState.passed then TaskState.passed else TaskState.success }
      let st₂ := setDriver st₁ d a'
      let r₁ := processProvisions env st₂ a.provisions
      let r₂ := scanOutputs env r₁.1 a.outputs
      (destroyDriver r₂.1 d, r₁.2 ++ r₂.2 ++ [Event.cancelGroup d])
    else
      (destroyDriver (setDriver st₁ d { a with task := TaskState.failed }) d,
       [Event.cancelGroup d])
  else
    let a' := { a with state := DState.pending, provisions := [], outputs := [],
                       task := TaskState.blocked }
    let st₂ := setDriver st₁ d a'
    ({ st₂ with blockedActionPtrs := st₂.blockedActionPtrs ++ [d],
                blockedActions := st₂.blockedActions ++
                  a.missingDependencies.map (fun p => (p.1, d)) },
     [Event.cancelGroup d])

/-- DoneCallback::run (Driver.cpp lines 91..95): finalize, then fill vacated
slots with startSomeActions. -/
def doneCallback (env : Env) (st : DriverState) (d : DriverId) : DriverState × List Event :=
  let r := returned env st d
  ((startSomeActions r.1).1, r.2)

/-- Driver::start (Driver.cpp lines 366..369). -/
def driverStart (env : Env) (st : DriverState) : DriverState :=
  (startSomeActions (scanForActions env st st.src st.tmp)).1

/-- The Driver destructor (Driver.cpp lines 349..354): every still-blocked
action has its Dashboard task set to FAILED. -/
def failBlocked (drivers : List (DriverId × ActionDriver)) :
    List DriverId → List (DriverId × ActionDriver)
  | [] => drivers
  | d :: rest =>
      failBlocked
        (insertA drivers d { (lookupA drivers d).getD default with task := TaskState.failed })
        rest

def driverDestroy (st : DriverState) : DriverState :=
  { st with drivers := failBlocked st.drivers st.blockedActionPtrs }

/-- The Driver constructor (Driver.cpp lines 344..347): all collections empty. -/
def initState (maxC : Nat) (src tmp : FileId) : DriverState :=
  { src := src, tmp := tmp, maxConcurrentActions := maxC, triggers := [],
    entityMap := [], filePtrs := [], activeActions := [], pendingActions := [],
    blockedActions := [], blockedActionPtrs := [], drivers := [], nextId := 0 }

/-! Event classifiers and the ordering checker used for the finalize ordering
claims.  noLaterMatch p q tr says that no q-event occurs strictly after any
p-event in the trace tr. -/

def isTrigFor (id : EntityId) : Event → Bool
  | Event.trigger i _ _ => i = id
  | _ => false

def isUnbFor (id : EntityId) : Event → Bool
  | Event.unblock i _ => i = id
  | _ => false

def isTrigEv : Event → Bool
  | Event.trigger _ _ _ => true
  | _ => false

def isUnbEv : Event → Bool
  | Event.unblock _ _ => true
  | _ => false

def isScanEv : Event → Bool
  | Event.scan _ => true
  | _ => false

def noLaterMatch (p q : Event → Bool) : List Event → Bool
  | [] => true
  | e :: rest => (!(p e) || !(rest.any q)) && noLaterMatch p q rest

/-! The event-loop turns of the single-threaded cooperative model (spec section
5): a Driver::start call, a factory registration, one BuildContext call made by
a running action (only calls that return normally change the state), an
exception routed to the ExceptionHandler, and a completion callback.  A
completion callback exists only for a driver that reported an outcome while
running, hence in the active set with a terminal state. -/

inductive Turn (env : Env) : DriverState → DriverState → Prop
  | startAll (st : DriverState) : Turn env st (driverStart env st)
  | addFac (st : DriverState) (fac : FactoryId) (ids : List EntityId) :
      Turn env st (addActionFactory st fac ids)
  | find (st st' : DriverState) (d : DriverId) (id : EntityId) (title : String)
      (r : Option FileId) (h : findProvider st d id title = Except.ok (st', r)) :
      Turn env st st'
  | prov (st st' : DriverState) (d : DriverId) (f : FileId) (es : List EntityId)
      (h : provide st d f es = Except.ok st') : Turn env st st'
  | out (st st' : DriverState) (d : DriverId) (b : String) (f : FileId)
      (h : newOutput env st d b = Except.ok (st', f)) : Turn env st st'
  | logTurn (st st' : DriverState) (d : DriverId) (t : String)
      (h : logText st d t = Except.ok st') : Turn env st st'
  | succ (st st' : DriverState) (d : DriverId) (b : Bool)
      (h : success st d = Except.ok (st', b)) : Turn env st st'
  | pass (st st' : DriverState) (d : DriverId) (b : Bool)
      (h : passed st d = Except.ok (st', b)) : Turn env st st'
  | fail (st st' : DriverState) (d : DriverId) (b : Bool)
      (h : failed st d = Except.ok (st', b)) : Turn env st st'
  | threw (st : DriverState) (d : DriverId) (diag : String) :
      Turn env st (threwException st d diag).1
  | done (st : DriverState) (d : DriverId) (hd : d ∈ st.activeActions)
      (hs : (getDriver st d).state = DState.succeeded ∨
            (getDriver st d).state = DState.passed ∨
            (getDriver st d).state = DState.failed) :
      Turn env st (doneCallback env st d).1

/-- States reachable from a given state by event-loop turns. -/
inductive Reachable (env : Env) (st₀ : DriverState) : DriverState → Prop
  | refl : Reachable env st₀ st₀
  | step {st st' : DriverState} :
      Reachable env st₀ st → Turn env st st' → Reachable env st₀ st'

/-- A per-run-clean driver record: state PENDING with no missing dependencies,
no staged provisions and no outputs. -/
def cleanDriver (a : ActionDriver) : Prop :=
  a.state = DState.pending ∧ a.missingDependencies = [] ∧
  a.provisions = [] ∧ a.outputs = []

instance (a : ActionDriver) : Decidable (cleanDriver a) := by
  unfold cleanDriver; infer_instance

/-- What holds of every driver owned by the blocked set: state PENDING with
provisions and outputs already discarded (its missingDependencies may be
anything, the rollback keeps them). -/
def blockedDriverOk (a : ActionDriver) : Prop :=
  a.state = DState.pending ∧ a.provisions = [] ∧ a.outputs = []

/-- The scheduler invariant maintained by every event-loop turn.  Beyond the
cleanliness of pending and blocked drivers it records the bookkeeping facts
that make the collections consistent: no duplicate ownership, ids below the
allocator, forward edges pointing into the blocked-owner set, and every forward
edge key present in the missingDependencies of its driver. -/
structure Inv (st : DriverState) : Prop where
  pc : ∀ d ∈ st.pendingActions, cleanDriver (getDriver st d)
  bc : ∀ d ∈ st.blockedActionPtrs, blockedDriverOk (getDriver st d)
  pn : st.pendingActions.Nodup
  bn : st.blockedActionPtrs.Nodup
  pdisj : ∀ d ∈ st.pendingActions, d ∉ st.blockedActionPtrs
  bp : ∀ d ∈ st.pendingActions, d < st.nextId
  baa : ∀ d ∈ st.activeActions, d < st.nextId
  bbp : ∀ d ∈ st.blockedActionPtrs, d < st.nextId
  bv : ∀ p ∈ st.blockedActions, p.2 ∈ st.blockedActionPtrs
  bk : ∀ p ∈ st.blockedActions,
        (lookupA (getDriver st p.2).missingDependencies p.1).isSome = true
  bnd : ∀ id, (bucketOf st.blockedActions id).Nodup
  mkeys : ∀ d, ((getDriver st d).missingDependencies.map (fun p => p.1)).Nodup

/-- The concurrency cap: the active set never exceeds maxConcurrentActions. -/
def ActiveBound (st : DriverState) : Prop :=
  st.activeActions.length ≤ st.maxConcurrentActions

/-! Concrete states and environments used to instantiate theorems with
hypotheses. -/

def titleT : String := "t"

def runRecord : ActionDriver :=
  { state := DState.running, task := TaskState.running, taskOutput := [],
    tmpdir := 0, missingDependencies := [], provisions := [], outputs := [] }

def envNone : Env :=
  { tryMakeAction := fun _ _ _ => false, parent := fun f => f,
    relative := fun f _ => f, scanned := fun _ _ => [] }

def envScan : Env :=
  { envNone with scanned := fun _ _ => [(5, 6)] }

def exRunSt : DriverState :=
  { initState 2 0 1 with
      entityMap := [(1, 10)], activeActions := [0],
      drivers := [(0, runRecord)], nextId := 1 }

def exMissSt : DriverState :=
  { initState 2 0 1 with
      activeActions := [0],
      drivers := [(0, { runRecord with missingDependencies := [(2, titleT)] })],
      nextId := 1 }

def exRollSt : DriverState :=
  { initState 2 0 1 with
      activeActions := [0],
      drivers := [(0, { runRecord with
                        state := DState.failed,
                        missingDependencies := [(2, titleT)],
                        provisions := [⟨9, [3]⟩], outputs := [8] })],
      nextId := 1 }

def exBlockSt : DriverState :=
  { initState 2 0 1 with
      blockedActions := [(2, 0), (2, 1)],
      blockedActionPtrs := [0, 1],
      drivers := [(0, { runRecord with
                        state := DState.pending, task := TaskState.blocked,
                        missingDependencies := [(2, titleT)] }),
                  (1, { runRecord with
                        state := DState.pending, task := TaskState.blocked,
                        missingDependencies := [(2, titleT), (4, titleT)] })],
      nextId := 2 }

def exPendSt : DriverState :=
  { initState 1 0 1 with
      pendingActions := [1, 2],
      drivers := [(1, default), (2, default)], nextId := 3 }

def exC1St : DriverState :=
  { initState 2 0 1 with
      activeActions := [0],
      triggers := [(1, 7)],
      blockedActions := [(2, 5)],
      blockedActionPtrs := [5],
      drivers := [(0, { runRecord with
                        state := DState.succeeded,
                        provisions := [⟨10, [1, 2]⟩] }),
                  (5, { runRecord with
                        state := DState.pending, task := TaskState.blocked,
                        missingDependencies := [(2, titleT)] })],
      nextId := 6 }

def exC7St : DriverState :=
  { initState 2 0 1 with
      activeActions := [0],
      blockedActions := [(3, 9)],
      blockedActionPtrs := [9],
      drivers := [(0, { runRecord with state := DState.succeeded }),
                  (9, { runRecord with
                        state := DState.pending, task := TaskState.blocked,
                        missingDependencies := [(3, titleT)] })],
      nextId := 10 }

def exShutSt : DriverState :=
  { initState 2 0 1 with
      blockedActionPtrs := [3],
      drivers := [(3, { runRecord with
                        state := DState.pending, task := TaskState.blocked,
                        missingDependencies := [(2, titleT)] })],
      nextId := 4 }

/-! ### Theorems -/

/-! Association list lemmas. -/

theorem lookupA_insertA_self {β : Type} (m : List (Nat × β)) (k : Nat) (v : β) :
    lookupA (insertA m k v) k = some v := by
  induction m with
  | nil => simp [insertA, lookupA]
  | cons p rest ih =>
    obtain ⟨k₀, v₀⟩ := p
    by_cases h : k₀ = k
    · simp [insertA, h, lookupA]
    · simp [insertA, h, lookupA, ih]

theorem lookupA_insertA_ne {β : Type} (m : List (Nat × β)) (k k' : Nat) (v : β)
    (h : k' ≠ k) : lookupA (insertA m k v) k' = lookupA m k' := by
  induction m with
  | nil => simp [insertA, lookupA, Ne.symm h]
  | cons p rest ih =>
    obtain ⟨k₀, v₀⟩ := p
    by_cases hk : k₀ = k
    · subst hk
      simp [insertA, lookupA, Ne.symm h]
    · by_cases h2 : k₀ = k'
      · simp [insertA, hk, lookupA, h2, h]
      · simp [insertA, hk, lookupA, h2, ih]

theorem insertA_insertA_same {β : Type} (m : List (Nat × β)) (k : Nat) (v : β) :
    insertA (insertA m k v) k v = insertA m k v := by
  induction m with
  | nil => simp [insertA]
  | cons p rest ih =>
    obtain ⟨k₀, v₀⟩ := p
    by_cases hk : k₀ = k
    · simp [insertA, hk]
    · simp [insertA, hk, ih]

theorem eraseA_cons {β : Type} (k₀ : Nat) (v₀ : β) (rest : List (Nat × β)) (k : Nat) :
    eraseA ((k₀, v₀) :: rest) k =
      if k₀ = k then eraseA rest k else (k₀, v₀) :: eraseA rest k := by
  by_cases hk : k₀ = k <;> simp [eraseA, hk]

theorem lookupA_eraseA_ne {β : Type} (m : List (Nat × β)) (k k' : Nat) (h : k' ≠ k) :
    lookupA (eraseA m k) k' = lookupA m k' := by
  induction m with
  | nil => rfl
  | cons p rest ih =>
    obtain ⟨k₀, v₀⟩ := p
    rw [eraseA_cons]
    by_cases hk : k₀ = k
    · subst hk
      simp [lookupA, Ne.symm h, ih]
    · by_cases h2 : k₀ = k'
      · simp [hk, lookupA, h2, h]
      · simp [hk, lookupA, h2, ih]

/-! Driver record access lemmas. -/

theorem getDriver_setDriver_self (st : DriverState) (d : DriverId) (a : ActionDriver) :
    getDriver (setDriver st d a) d = a := by
  simp [getDriver, setDriver, lookupA_insertA_self]

theorem getDriver_setDriver_ne (st : DriverState) (d d' : DriverId) (a : ActionDriver)
    (h : d' ≠ d) : getDriver (setDriver st d a) d' = getDriver st d' := by
  simp [getDriver, setDriver, lookupA_insertA_ne _ _ _ _ h]

theorem getDriver_destroyDriver_ne (st : DriverState) (d d' : DriverId)
    (h : d' ≠ d) : getDriver (destroyDriver st d) d' = getDriver st d' := by
  simp [getDriver, destroyDriver, lookupA_eraseA_ne _ _ _ h]

/-! Projection lemmas: which fields each basic operation leaves unchanged. -/

@[simp] theorem setDriver_activeActions (st : DriverState) (d : DriverId) (a : ActionDriver) :
    (setDriver st d a).activeActions = st.activeActions := rfl

@[simp] theorem setDriver_pendingActions (st : DriverState) (d : DriverId) (a : ActionDriver) :
    (setDriver st d a).pendingActions = st.pendingActions := rfl

@[simp] theorem setDriver_blockedActions (st : DriverState) (d : DriverId) (a : ActionDriver) :
    (setDriver st d a).blockedActions = st.blockedActions := rfl

@[simp] theorem setDriver_blockedActionPtrs (st : DriverState) (d : DriverId) (a : ActionDriver) :
    (setDriver st d a).blockedActionPtrs = st.blockedActionPtrs := rfl

@[simp] theorem setDriver_triggers (st : DriverState) (d : DriverId) (a : ActionDriver) :
    (setDriver st d a).triggers = st.triggers := rfl

@[simp] theorem setDriver_entityMap (st : DriverState) (d : DriverId) (a : ActionDriver) :
    (setDriver st d a).entityMap = st.entityMap := rfl

@[simp] theorem setDriver_filePtrs (st : DriverState) (d : DriverId) (a : ActionDriver) :
    (setDriver st d a).filePtrs = st.filePtrs := rfl

@[simp] theorem setDriver_nextId (st : DriverState) (d : DriverId) (a : ActionDriver) :
    (setDriver st d a).nextId = st.nextId := rfl

@[simp] theorem setDriver_maxConcurrentActions (st : DriverState) (d : DriverId)
    (a : ActionDriver) : (setDriver st d a).maxConcurrentActions = st.maxConcurrentActions := rfl

@[simp] theorem destroyDriver_activeActions (st : DriverState) (d : DriverId) :
    (destroyDriver st d).activeActions = st.activeActions := rfl

@[simp] theorem destroyDriver_pendingActions (st : DriverState) (d : DriverId) :
    (destroyDriver st d).pendingActions = st.pendingActions := rfl

@[simp] theorem destroyDriver_blockedActions (st : DriverState) (d : DriverId) :
    (destroyDriver st d).blockedActions = st.blockedActions := rfl

@[simp] theorem destroyDriver_blockedActionPtrs (st : DriverState) (d : DriverId) :
    (destroyDriver st d).blockedActionPtrs = st.blockedActionPtrs := rfl

@[simp] theorem destroyDriver_triggers (st : DriverState) (d : DriverId) :
    (destroyDriver st d).triggers = st.triggers := rfl

@[simp] theorem destroyDriver_entityMap (st : DriverState) (d : DriverId) :
    (destroyDriver st d).entityMap = st.entityMap := rfl

@[simp] theorem destroyDriver_nextId (st : DriverState) (d : DriverId) :
    (destroyDriver st d).nextId = st.nextId := rfl

@[simp] theorem destroyDriver_maxConcurrentActions (st : DriverState) (d : DriverId) :
    (destroyDriver st d).maxConcurrentActions = st.maxConcurrentActions := rfl

@[simp] theorem queueNewAction_activeActions (env : Env) (st : DriverState) (t : FileId) :
    (queueNewAction env st t).activeActions = st.activeActions := rfl

@[simp] theorem queueNewAction_blockedActions (env : Env) (st : DriverState) (t : FileId) :
    (queueNewAction env st t).blockedActions = st.blockedActions := rfl

@[simp] theorem queueNewAction_blockedActionPtrs (env : Env) (st : DriverState) (t : FileId) :
    (queueNewAction env st t).blockedActionPtrs = st.blockedActionPtrs := rfl

@[simp] theorem queueNewAction_triggers (env : Env) (st : DriverState) (t : FileId) :
    (queueNewAction env st t).triggers = st.triggers := rfl

@[simp] theorem queueNewAction_entityMap (env : Env) (st : DriverState) (t : FileId) :
    (queueNewAction env st t).entityMap = st.entityMap := rfl

@[simp] theorem queueNewAction_filePtrs (env : Env) (st : DriverState) (t : FileId) :
    (queueNewAction env st t).filePtrs = st.filePtrs := rfl

@[simp] theorem queueNewAction_maxConcurrentActions (env : Env) (st : DriverState) (t : FileId) :
    (queueNewAction env st t).maxConcurrentActions = st.maxConcurrentActions := rfl

@[simp] theorem queueNewAction_pendingActions (env : Env) (st : DriverState) (t : FileId) :
    (queueNewAction env st t).pendingActions = st.pendingActions ++ [st.nextId] := rfl

@[simp] theorem queueNewAction_nextId (env : Env) (st : DriverState) (t : FileId) :
    (queueNewAction env st t).nextId = st.nextId + 1 := rfl

theorem getDriver_queueNewAction_ne (env : Env) (st : DriverState) (t : FileId) (d : DriverId)
    (h : d ≠ st.nextId) : getDriver (queueNewAction env st t) d = getDriver st d := by
  simp [getDriver, queueNewAction, lookupA_insertA_ne _ _ _ _ h]

theorem getDriver_queueNewAction_self (env : Env) (st : DriverState) (t : FileId) :
    cleanDriver (getDriver (queueNewAction env st t) st.nextId) := by
  simp [getDriver, queueNewAction, lookupA_insertA_self, cleanDriver]

/-! Frame lemmas for the loops of the commit path. -/

theorem queueScanned_frame (env : Env) (l : List (FileId × FileId)) : ∀ st : DriverState,
    (queueScanned env st l).activeActions = st.activeActions ∧
    (queueScanned env st l).blockedActions = st.blockedActions ∧
    (queueScanned env st l).blockedActionPtrs = st.blockedActionPtrs ∧
    (queueScanned env st l).triggers = st.triggers ∧
    (queueScanned env st l).maxConcurrentActions = st.maxConcurrentActions := by
  induction l with
  | nil => intro st; simp [queueScanned]
  | cons p rest ih =>
    intro st
    simpa only [queueScanned, queueNewAction_activeActions, queueNewAction_blockedActions,
      queueNewAction_blockedActionPtrs, queueNewAction_triggers,
      queueNewAction_maxConcurrentActions] using ih (queueNewAction env st p.2)

theorem fireTriggersGo_frame (env : Env) (id : EntityId) (f : FileId)
    (facs : List FactoryId) : ∀ st : DriverState,
    (fireTriggersGo env st id f facs).1.activeActions = st.activeActions ∧
    (fireTriggersGo env st id f facs).1.blockedActions = st.blockedActions ∧
    (fireTriggersGo env st id f facs).1.blockedActionPtrs = st.blockedActionPtrs ∧
    (fireTriggersGo env st id f facs).1.triggers = st.triggers ∧
    (fireTriggersGo env st id f facs).1.maxConcurrentActions = st.maxConcurrentActions := by
  induction facs with
  | nil => intro st; simp [fireTriggersGo]
  | cons fac rest ih =>
    intro st
    by_cases htm : env.tryMakeAction fac id f
    · simpa only [fireTriggersGo, htm, if_true, queueNewAction_activeActions,
        queueNewAction_blockedActions, queueNewAction_blockedActionPtrs,
        queueNewAction_triggers, queueNewAction_maxConcurrentActions]
        using ih (queueNewAction env st f)
    · simpa only [fireTriggersGo, htm, if_false] using ih st

theorem unblockGo_frame (id : EntityId) (ws : List DriverId) : ∀ st : DriverState,
    (unblockGo st id ws).1.activeActions = st.activeActions ∧
    (unblockGo st id ws).1.blockedActions = st.blockedActions ∧
    (unblockGo st id ws).1.entityMap = st.entityMap ∧
    (unblockGo st id ws).1.triggers = st.triggers ∧
    (unblockGo st id ws).1.nextId = st.nextId ∧
    (unblockGo st id ws).1.maxConcurrentActions = st.maxConcurrentActions ∧
    (unblockGo st id ws).1.filePtrs = st.filePtrs := by
  induction ws with
  | nil => intro st; simp [unblockGo]
  | cons w rest ih =>
    intro st
    simp only [unblockGo]
    split
    · split
      · simpa using ih _
      · simpa using ih _
    · simpa using ih _

/-! The BlockingIndex bucket loop: how unblockGo transforms records, the
blocked-owner set, the pending queue and the promoted list. -/

theorem unblockGo_record_notmem (id : EntityId) (ws : List DriverId) : ∀ st : DriverState,
    ∀ w, w ∉ ws → getDriver (unblockGo st id ws).1 w = getDriver st w := by
  induction ws with
  | nil => intro st w _; rfl
  | cons w' rest ih =>
    intro st w hw
    simp only [List.mem_cons, not_or] at hw
    obtain ⟨hne, hnr⟩ := hw
    by_cases he : eraseA (getDriver st w').missingDependencies id = []
    · by_cases hp : w' ∈ st.blockedActionPtrs
      · simp only [unblockGo, setDriver_blockedActionPtrs]
        rw [if_pos he, if_pos hp, ih _ w hnr]
        simp [getDriver, setDriver, lookupA_insertA_ne _ _ _ _ hne]
      · simp only [unblockGo, setDriver_blockedActionPtrs]
        rw [if_pos he, if_neg hp, ih _ w hnr]
        simp [getDriver, setDriver, lookupA_insertA_ne _ _ _ _ hne]
    · simp only [unblockGo, setDriver_blockedActionPtrs]
      rw [if_neg he, ih _ w hnr]
      simp [getDriver, setDriver, lookupA_insertA_ne _ _ _ _ hne]

theorem unblockGo_record_mem (id : EntityId) (ws : List DriverId) : ∀ st : DriverState,
    ws.Nodup → ∀ w ∈ ws,
    getDriver (unblockGo st id ws).1 w =
      { getDriver st w with
        missingDependencies := eraseA (getDriver st w).missingDependencies id } := by
  induction ws with
  | nil => intro st _ w hw; cases hw
  | cons w' rest ih =>
    intro st hnd w hw
    obtain ⟨hw', hndr⟩ := List.nodup_cons.mp hnd
    rcases List.mem_cons.mp hw with rfl | hmem
    · by_cases he : eraseA (getDriver st w).missingDependencies id = []
      · by_cases hp : w ∈ st.blockedActionPtrs
        · simp only [unblockGo, setDriver_blockedActionPtrs]
          rw [if_pos he, if_pos hp, unblockGo_record_notmem id rest _ w hw']
          simp [getDriver, setDriver, lookupA_insertA_self]
        · simp only [unblockGo, setDriver_blockedActionPtrs]
          rw [if_pos he, if_neg hp, unblockGo_record_notmem id rest _ w hw']
          simp [getDriver, setDriver, lookupA_insertA_self]
      · simp only [unblockGo, setDriver_blockedActionPtrs]
        rw [if_neg he, unblockGo_record_notmem id rest _ w hw']
        simp [getDriver, setDriver, lookupA_insertA_self]
    · have hne : w ≠ w' := fun h => hw' (h ▸ hmem)
      by_cases he : eraseA (getDriver st w').missingDependencies id = []
      · by_cases hp : w' ∈ st.blockedActionPtrs
        · simp only [unblockGo, setDriver_blockedActionPtrs]
          rw [if_pos he, if_pos hp, ih _ hndr w hmem]
          simp [getDriver, setDriver, lookupA_insertA_ne _ _ _ _ hne]
        · simp only [unblockGo, setDriver_blockedActionPtrs]
          rw [if_pos he, if_neg hp, ih _ hndr w hmem]
          simp [getDriver, setDriver, lookupA_insertA_ne _ _ _ _ hne]
      · simp only [unblockGo, setDriver_blockedActionPtrs]
        rw [if_neg he, ih _ hndr w hmem]
        simp [getDriver, setDriver, lookupA_insertA_ne _ _ _ _ hne]

theorem unblockGo_pending (id : EntityId) (ws : List DriverId) : ∀ st : DriverState,
    (unblockGo st id ws).1.pendingActions =
      st.pendingActions ++ (unblockGo st id ws).2 := by
  induction ws with
  | nil => intro st; simp [unblockGo]
  | cons w' rest ih =>
    intro st
    by_cases he : eraseA (getDriver st w').missingDependencies id = []
    · by_cases hp : w' ∈ st.blockedActionPtrs
      · simp only [unblockGo, setDriver_blockedActionPtrs]
        rw [if_pos he, if_pos hp]
        simp only [ih]
        simp
      · simp only [unblockGo, setDriver_blockedActionPtrs]
        rw [if_pos he, if_neg hp]
        simpa using ih _
    · simp only [unblockGo, setDriver_blockedActionPtrs]
      rw [if_neg he]
      simpa using ih _

theorem unblockGo_promoted_sub (id : EntityId) (ws : List DriverId) : ∀ st : DriverState,
    ∀ w ∈ (unblockGo st id ws).2, w ∈ ws := by
  induction ws with
  | nil => intro st w hw; simp [unblockGo] at hw
  | cons w' rest ih =>
    intro st w hw
    by_cases he : eraseA (getDriver st w').missingDependencies id = []
    · by_cases hp : w' ∈ st.blockedActionPtrs
      · simp only [unblockGo, setDriver_blockedActionPtrs] at hw
        rw [if_pos he, if_pos hp] at hw
        rcases List.mem_cons.mp hw with rfl | h
        · exact List.mem_cons_self _ _
        · exact List.mem_cons_of_mem _ (ih _ w h)
      · simp only [unblockGo, setDriver_blockedActionPtrs] at hw
        rw [if_pos he, if_neg hp] at hw
        exact List.mem_cons_of_mem _ (ih _ w hw)
    · simp only [unblockGo, setDriver_blockedActionPtrs] at hw
      rw [if_neg he] at hw
      exact List.mem_cons_of_mem _ (ih _ w hw)

theorem unblockGo_ptrs_notmem (id : EntityId) (ws : List DriverId) : ∀ st : DriverState,
    ∀ w, w ∉ ws →
    ((w ∈ (unblockGo st id ws).1.blockedActionPtrs) ↔ w ∈ st.blockedActionPtrs) := by
  induction ws with
  | nil => intro st w _; simp [unblockGo]
  | cons w' rest ih =>
    intro st w hw
    simp only [List.mem_cons, not_or] at hw
    obtain ⟨hne, hnr⟩ := hw
    by_cases he : eraseA (getDriver st w').missingDependencies id = []
    · by_cases hp : w' ∈ st.blockedActionPtrs
      · simp only [unblockGo, setDriver_blockedActionPtrs]
        rw [if_pos he, if_pos hp, ih _ w hnr]
        simpa using List.mem_erase_of_ne hne
      · simp only [unblockGo, setDriver_blockedActionPtrs]
        rw [if_pos he, if_neg hp, ih _ w hnr]
        simp
    · simp only [unblockGo, setDriver_blockedActionPtrs]
      rw [if_neg he, ih _ w hnr]
      simp

theorem unblockGo_ptrs_sub (id : EntityId) (ws : List DriverId) : ∀ st : DriverState,
    ∀ w ∈ (unblockGo st id ws).1.blockedActionPtrs, w ∈ st.blockedActionPtrs := by
  induction ws with
  | nil => intro st w hw; simpa [unblockGo] using hw
  | cons w' rest ih =>
    intro st w hw
    by_cases he : eraseA (getDriver st w').missingDependencies id = []
    · by_cases hp : w' ∈ st.blockedActionPtrs
      · simp only [unblockGo, setDriver_blockedActionPtrs] at hw
        rw [if_pos he, if_pos hp] at hw
        have h2 := ih _ w hw
        simp only [setDriver_blockedActionPtrs] at h2
        exact List.mem_of_mem_erase h2
      · simp only [unblockGo, setDriver_blockedActionPtrs] at hw
        rw [if_pos he, if_neg hp] at hw
        simpa using ih _ w hw
    · simp only [unblockGo, setDriver_blockedActionPtrs] at hw
      rw [if_neg he] at hw
      simpa using ih _ w hw

theorem unblockGo_ptrs_nodup (id : EntityId) (ws : List DriverId) : ∀ st : DriverState,
    st.blockedActionPtrs.Nodup → (unblockGo st id ws).1.blockedActionPtrs.Nodup := by
  induction ws with
  | nil => intro st h; simpa [unblockGo] using h
  | cons w' rest ih =>
    intro st h
    by_cases he : eraseA (getDriver st w').missingDependencies id = []
    · by_cases hp : w' ∈ st.blockedActionPtrs
      · simp only [unblockGo, setDriver_blockedActionPtrs]
        rw [if_pos he, if_pos hp]
        exact ih _ (by simpa using h.erase _)
      · simp only [unblockGo, setDriver_blockedActionPtrs]
        rw [if_pos he, if_neg hp]
        exact ih _ (by simpa using h)
    · simp only [unblockGo, setDriver_blockedActionPtrs]
      rw [if_neg he]
      exact ih _ (by simpa using h)

theorem unblockGo_promoted_nodup (id : EntityId) (ws : List DriverId) : ∀ st : DriverState,
    ws.Nodup → (unblockGo st id ws).2.Nodup := by
  induction ws with
  | nil => intro st _; simp [unblockGo]
  | cons w' rest ih =>
    intro st hnd
    obtain ⟨hw', hndr⟩ := List.nodup_cons.mp hnd
    by_cases he : eraseA (getDriver st w').missingDependencies id = []
    · by_cases hp : w' ∈ st.blockedActionPtrs
      · simp only [unblockGo, setDriver_blockedActionPtrs]
        rw [if_pos he, if_pos hp]
        refine List.nodup_cons.mpr ⟨?_, ih _ hndr⟩
        intro hmem
        exact hw' (unblockGo_promoted_sub id rest _ w' hmem)
      · simp only [unblockGo, setDriver_blockedActionPtrs]
        rw [if_pos he, if_neg hp]
        exact ih _ hndr
    · simp only [unblockGo, setDriver_blockedActionPtrs]
      rw [if_neg he]
      exact ih _ hndr

theorem unblockGo_promote (id : EntityId) (ws : List DriverId) : ∀ st : DriverState,
    ws.Nodup → (∀ w ∈ ws, w ∈ st.blockedActionPtrs) → st.blockedActionPtrs.Nodup →
    ∀ w ∈ ws,
      ((getDriver (unblockGo st id ws).1 w).missingDependencies = [] →
        w ∉ (unblockGo st id ws).1.blockedActionPtrs ∧ w ∈ (unblockGo st id ws).2) ∧
      ((getDriver (unblockGo st id ws).1 w).missingDependencies ≠ [] →
        w ∈ (unblockGo st id ws).1.blockedActionPtrs ∧ w ∉ (unblockGo st id ws).2) := by
  induction ws with
  | nil => intro st _ _ _ w hw; cases hw
  | cons w' rest ih =>
    intro st hnd hmem hbn w hw
    obtain ⟨hw', hndr⟩ := List.nodup_cons.mp hnd
    have hmw' : w' ∈ st.blockedActionPtrs := hmem w' (List.mem_cons_self _ _)
    rcases List.mem_cons.mp hw with rfl | hmem_w
    · -- the head of the bucket
      by_cases he : eraseA (getDriver st w).missingDependencies id = []
      · -- promoted
        have hrec : getDriver (unblockGo
            { setDriver st w
                { getDriver st w with
                  missingDependencies := eraseA (getDriver st w).missingDependencies id } with
              blockedActionPtrs := st.blockedActionPtrs.erase w,
              pendingActions := st.pendingActions ++ [w] } id rest).1 w =
            { getDriver st w with
              missingDependencies := eraseA (getDriver st w).missingDependencies id } := by
          rw [unblockGo_record_notmem id rest _ w hw']
          simp [getDriver, setDriver, lookupA_insertA_self]
        simp only [unblockGo, setDriver_blockedActionPtrs, setDriver_pendingActions]
        rw [if_pos he, if_pos hmw']
        constructor
        · intro _
          constructor
          · rw [unblockGo_ptrs_notmem id rest _ w hw']
            simp only [setDriver_blockedActionPtrs]
            intro hc
            exact absurd ((hbn.mem_erase_iff).mp hc).1 (by simp)
          · exact List.mem_cons_self _ _
        · intro hc
          rw [hrec] at hc
          simp [he] at hc
      · -- stays blocked
        simp only [unblockGo, setDriver_blockedActionPtrs]
        rw [if_neg he]
        constructor
        · intro hc
          rw [unblockGo_record_notmem id rest _ w hw'] at hc
          simp only [getDriver, setDriver, lookupA_insertA_self] at hc
          simp at hc
          exact absurd hc he
        · intro _
          constructor
          · rw [unblockGo_ptrs_notmem id rest _ w hw']
            simpa using hmw'
          · intro hc
            exact hw' (unblockGo_promoted_sub id rest _ w hc)
    · -- further down the bucket
      have hne : w ≠ w' := fun h => hw' (h ▸ hmem_w)
      by_cases he : eraseA (getDriver st w').missingDependencies id = []
      · by_cases hp : w' ∈ st.blockedActionPtrs
        · simp only [unblockGo, setDriver_blockedActionPtrs, setDriver_pendingActions]
          rw [if_pos he, if_pos hp]
          constructor
          · intro hc
            have hkey := (ih _ hndr
              (by
                intro v hv
                have hv' : v ≠ w' := fun h => hw' (h ▸ hv)
                exact (List.mem_erase_of_ne hv').mpr (hmem v (List.mem_cons_of_mem _ hv)))
              (by simpa using hbn.erase _) w hmem_w).1 hc
            exact ⟨hkey.1, List.mem_cons_of_mem _ hkey.2⟩
          · intro hc
            have hkey := (ih _ hndr
              (by
                intro v hv
                have hv' : v ≠ w' := fun h => hw' (h ▸ hv)
                exact (List.mem_erase_of_ne hv').mpr (hmem v (List.mem_cons_of_mem _ hv)))
              (by simpa using hbn.erase _) w hmem_w).2 hc
            refine ⟨hkey.1, ?_⟩
            intro hmem2
            rcases List.mem_cons.mp hmem2 with h | h
            · exact hne h
            · exact hkey.2 h
        · exact absurd hmw' hp
      · simp only [unblockGo, setDriver_blockedActionPtrs]
        rw [if_neg he]
        exact ih _ hndr
          (by intro v hv; simpa using hmem v (List.mem_cons_of_mem _ hv))
          (by simpa using hbn) w hmem_w

/-! Component accessor lemmas for the loop frames. -/

theorem unblockGo_active (id : EntityId) (ws : List DriverId) (st : DriverState) :
    (unblockGo st id ws).1.activeActions = st.activeActions :=
  (unblockGo_frame id ws st).1

theorem unblockGo_blocked (id : EntityId) (ws : List DriverId) (st : DriverState) :
    (unblockGo st id ws).1.blockedActions = st.blockedActions :=
  (unblockGo_frame id ws st).2.1

theorem unblockGo_entityMap (id : EntityId) (ws : List DriverId) (st : DriverState) :
    (unblockGo st id ws).1.entityMap = st.entityMap :=
  (unblockGo_frame id ws st).2.2.1

theorem unblockGo_triggers (id : EntityId) (ws : List DriverId) (st : DriverState) :
    (unblockGo st id ws).1.triggers = st.triggers :=
  (unblockGo_frame id ws st).2.2.2.1

theorem unblockGo_nextId (id : EntityId) (ws : List DriverId) (st : DriverState) :
    (unblockGo st id ws).1.nextId = st.nextId :=
  (unblockGo_frame id ws st).2.2.2.2.1

theorem unblockGo_max (id : EntityId) (ws : List DriverId) (st : DriverState) :
    (unblockGo st id ws).1.maxConcurrentActions = st.maxConcurrentActions :=
  (unblockGo_frame id ws st).2.2.2.2.2.1

theorem fireTriggersGo_active (env : Env) (id : EntityId) (f : FileId)
    (facs : List FactoryId) (st : DriverState) :
    (fireTriggersGo env st id f facs).1.activeActions = st.activeActions :=
  (fireTriggersGo_frame env id f facs st).1

theorem fireTriggersGo_blocked (env : Env) (id : EntityId) (f : FileId)
    (facs : List FactoryId) (st : DriverState) :
    (fireTriggersGo env st id f facs).1.blockedActions = st.blockedActions :=
  (fireTriggersGo_frame env id f facs st).2.1

theorem fireTriggersGo_ptrs (env : Env) (id : EntityId) (f : FileId)
    (facs : List FactoryId) (st : DriverState) :
    (fireTriggersGo env st id f facs).1.blockedActionPtrs = st.blockedActionPtrs :=
  (fireTriggersGo_frame env id f facs st).2.2.1

theorem fireTriggersGo_triggers (env : Env) (id : EntityId) (f : FileId)
    (facs : List FactoryId) (st : DriverState) :
    (fireTriggersGo env st id f facs).1.triggers = st.triggers :=
  (fireTriggersGo_frame env id f facs st).2.2.2.1

theorem fireTriggersGo_max (env : Env) (id : EntityId) (f : FileId)
    (facs : List FactoryId) (st : DriverState) :
    (fireTriggersGo env st id f facs).1.maxConcurrentActions = st.maxConcurrentActions :=
  (fireTriggersGo_frame env id f facs st).2.2.2.2

theorem queueScanned_active (env : Env) (l : List (FileId × FileId)) (st : DriverState) :
    (queueScanned env st l).activeActions = st.activeActions :=
  (queueScanned_frame env l st).1

theorem queueScanned_blocked (env : Env) (l : List (FileId × FileId)) (st : DriverState) :
    (queueScanned env st l).blockedActions = st.blockedActions :=
  (queueScanned_frame env l st).2.1

theorem queueScanned_ptrs (env : Env) (l : List (FileId × FileId)) (st : DriverState) :
    (queueScanned env st l).blockedActionPtrs = st.blockedActionPtrs :=
  (queueScanned_frame env l st).2.2.1

theorem queueScanned_max (env : Env) (l : List (FileId × FileId)) (st : DriverState) :
    (queueScanned env st l).maxConcurrentActions = st.maxConcurrentActions :=
  (queueScanned_frame env l st).2.2.2.2

/-! Accessor lemmas reducing unblockForEntity to unblockGo. -/

theorem unblockForEntity_getDriver (st : DriverState) (id : EntityId) (w : DriverId) :
    getDriver (unblockForEntity st id).1 w =
      getDriver (unblockGo st id (bucketOf st.blockedActions id)).1 w := rfl

theorem unblockForEntity_ptrs (st : DriverState) (id : EntityId) :
    (unblockForEntity st id).1.blockedActionPtrs =
      (unblockGo st id (bucketOf st.blockedActions id)).1.blockedActionPtrs := rfl

theorem unblockForEntity_pending (st : DriverState) (id : EntityId) :
    (unblockForEntity st id).1.pendingActions =
      (unblockGo st id (bucketOf st.blockedActions id)).1.pendingActions := rfl

theorem unblockForEntity_promoted (st : DriverState) (id : EntityId) :
    (unblockForEntity st id).2 = (unblockGo st id (bucketOf st.blockedActions id)).2 := rfl

theorem unblockForEntity_blockedActions (st : DriverState) (id : EntityId) :
    (unblockForEntity st id).1.blockedActions =
      (unblockGo st id (bucketOf st.blockedActions id)).1.blockedActions.filter
        (fun p => p.1 ≠ id) := rfl

theorem unblockForEntity_active (st : DriverState) (id : EntityId) :
    (unblockForEntity st id).1.activeActions =
      (unblockGo st id (bucketOf st.blockedActions id)).1.activeActions := rfl

theorem unblockForEntity_entityMap (st : DriverState) (id : EntityId) :
    (unblockForEntity st id).1.entityMap =
      (unblockGo st id (bucketOf st.blockedActions id)).1.entityMap := rfl

theorem unblockForEntity_triggers (st : DriverState) (id : EntityId) :
    (unblockForEntity st id).1.triggers =
      (unblockGo st id (bucketOf st.blockedActions id)).1.triggers := rfl

theorem unblockForEntity_nextId (st : DriverState) (id : EntityId) :
    (unblockForEntity st id).1.nextId =
      (unblockGo st id (bucketOf st.blockedActions id)).1.nextId := rfl

theorem unblockForEntity_max (st : DriverState) (id : EntityId) :
    (unblockForEntity st id).1.maxConcurrentActions =
      (unblockGo st id (bucketOf st.blockedActions id)).1.maxConcurrentActions := rfl

/-! Frames through the commit loops. -/

theorem processEntity_active (env : Env) (st : DriverState) (f : FileId) (id : EntityId) :
    (processEntity env st f id).1.activeActions = st.activeActions := by
  simp only [processEntity, fireTriggers]
  rw [fireTriggersGo_active, unblockForEntity_active, unblockGo_active]

theorem processEntity_blocked (env : Env) (st : DriverState) (f : FileId) (id : EntityId) :
    (processEntity env st f id).1.blockedActions =
      st.blockedActions.filter (fun p => p.1 ≠ id) := by
  simp only [processEntity, fireTriggers]
  rw [fireTriggersGo_blocked, unblockForEntity_blockedActions, unblockGo_blocked]

theorem processEntity_max (env : Env) (st : DriverState) (f : FileId) (id : EntityId) :
    (processEntity env st f id).1.maxConcurrentActions = st.maxConcurrentActions := by
  simp only [processEntity, fireTriggers]
  rw [fireTriggersGo_max, unblockForEntity_max, unblockGo_max]

theorem processEntity_ptrs_sub (env : Env) (st : DriverState) (f : FileId) (id : EntityId) :
    ∀ w ∈ (processEntity env st f id).1.blockedActionPtrs, w ∈ st.blockedActionPtrs := by
  intro w hw
  simp only [processEntity, fireTriggers] at hw
  rw [fireTriggersGo_ptrs, unblockForEntity_ptrs] at hw
  exact unblockGo_ptrs_sub id _ { st with entityMap := insertA st.entityMap id f } w hw

theorem processEntities_active (env : Env) (f : FileId) (es : List EntityId) :
    ∀ st : DriverState, (processEntities env st f es).1.activeActions = st.activeActions := by
  induction es with
  | nil => intro st; rfl
  | cons e rest ih =>
    intro st
    simp only [processEntities]
    rw [ih, processEntity_active]

theorem processEntities_max (env : Env) (f : FileId) (es : List EntityId) :
    ∀ st : DriverState,
    (processEntities env st f es).1.maxConcurrentActions = st.maxConcurrentActions := by
  induction es with
  | nil => intro st; rfl
  | cons e rest ih =>
    intro st
    simp only [processEntities]
    rw [ih, processEntity_max]

theorem processEntities_ptrs_sub (env : Env) (f : FileId) (es : List EntityId) :
    ∀ st : DriverState,
    ∀ w ∈ (processEntities env st f es).1.blockedActionPtrs, w ∈ st.blockedActionPtrs := by
  induction es with
  | nil => intro st w hw; exact hw
  | cons e rest ih =>
    intro st w hw
    simp only [processEntities] at hw
    exact processEntity_ptrs_sub env st f e w (ih _ w hw)

theorem processProvisions_active (env : Env) (ps : List Provision) :
    ∀ st : DriverState, (processProvisions env st ps).1.activeActions = st.activeActions := by
  induction ps with
  | nil => intro st; rfl
  | cons p rest ih =>
    intro st
    simp only [processProvisions]
    rw [ih, processEntities_active]

theorem processProvisions_max (env : Env) (ps : List Provision) :
    ∀ st : DriverState,
    (processProvisions env st ps).1.maxConcurrentActions = st.maxConcurrentActions := by
  induction ps with
  | nil => intro st; rfl
  | cons p rest ih =>
    intro st
    simp only [processProvisions]
    rw [ih, processEntities_max]

theorem processProvisions_ptrs_sub (env : Env) (ps : List Provision) :
    ∀ st : DriverState,
    ∀ w ∈ (processProvisions env st ps).1.blockedActionPtrs, w ∈ st.blockedActionPtrs := by
  induction ps with
  | nil => intro st w hw; exact hw
  | cons p rest ih =>
    intro st w hw
    simp only [processProvisions] at hw
    exact processEntities_ptrs_sub env p.file p.entities
      { st with filePtrs :=
          if p.file ∈ st.filePtrs then st.filePtrs else st.filePtrs ++ [p.file] }
      w (ih _ w hw)

theorem scanOutputs_active (env : Env) (outs : List FileId) :
    ∀ st : DriverState, (scanOutputs env st outs).1.activeActions = st.activeActions := by
  induction outs with
  | nil => intro st; rfl
  | cons o rest ih =>
    intro st
    simp only [scanOutputs, scanForActions]
    rw [ih, queueScanned_active]

theorem scanOutputs_ptrs (env : Env) (outs : List FileId) :
    ∀ st : DriverState,
    (scanOutputs env st outs).1.blockedActionPtrs = st.blockedActionPtrs := by
  induction outs with
  | nil => intro st; rfl
  | cons o rest ih =>
    intro st
    simp only [scanOutputs, scanForActions]
    rw [ih, queueScanned_ptrs]

theorem scanOutputs_max (env : Env) (outs : List FileId) :
    ∀ st : DriverState,
    (scanOutputs env st outs).1.maxConcurrentActions = st.maxConcurrentActions := by
  induction outs with
  | nil => intro st; rfl
  | cons o rest ih =>
    intro st
    simp only [scanOutputs, scanForActions]
    rw [ih, queueScanned_max]

/-! What finalize does to the active set, the concurrency cap and the blocked
set. -/

theorem returned_active (env : Env) (st : DriverState) (d : DriverId) :
    (returned env st d).1.activeActions = st.activeActions.erase d := by
  by_cases hm : (getDriver st d).missingDependencies = []
  · by_cases hs : (getDriver st d).state = DState.succeeded ∨
        (getDriver st d).state = DState.passed
    · simp only [returned]
      rw [if_pos hm, if_pos hs]
      rw [destroyDriver_activeActions, scanOutputs_active, processProvisions_active]
      rfl
    · simp only [returned]
      rw [if_pos hm, if_neg hs]
      rfl
  · simp only [returned]
    rw [if_neg hm]
    rfl

theorem returned_max (env : Env) (st : DriverState) (d : DriverId) :
    (returned env st d).1.maxConcurrentActions = st.maxConcurrentActions := by
  by_cases hm : (getDriver st d).missingDependencies = []
  · by_cases hs : (getDriver st d).state = DState.succeeded ∨
        (getDriver st d).state = DState.passed
    · simp only [returned]
      rw [if_pos hm, if_pos hs]
      rw [destroyDriver_maxConcurrentActions, scanOutputs_max, processProvisions_max]
      rfl
    · simp only [returned]
      rw [if_pos hm, if_neg hs]
      rfl
  · simp only [returned]
    rw [if_neg hm]
    rfl

theorem returned_ptrs_sub (env : Env) (st : DriverState) (d : DriverId)
    (hm : (getDriver st d).missingDependencies = []) :
    ∀ w ∈ (returned env st d).1.blockedActionPtrs, w ∈ st.blockedActionPtrs := by
  by_cases hs : (getDriver st d).state = DState.succeeded ∨
      (getDriver st d).state = DState.passed
  · intro w hw
    simp only [returned] at hw
    rw [if_pos hm, if_pos hs] at hw
    rw [destroyDriver_blockedActionPtrs, scanOutputs_ptrs] at hw
    exact processProvisions_ptrs_sub env (getDriver st d).provisions
      (setDriver { st with activeActions := st.activeActions.erase d } d
        { getDriver st d with
          task := if (getDriver st d).state = DState.passed then TaskState.passed
                  else TaskState.success })
      w hw
  · intro w hw
    simp only [returned] at hw
    rw [if_pos hm, if_neg hs] at hw
    exact hw

/-! Claim theorem for the BlockingIndex unblock step. -/

/-- Claim C3: when a committing driver publishes an entity id, every driver in
the forward set of that id loses the id from its missingDependencies; each
whose map thereby becomes empty is removed from the blocked-owner set and
appended to the pending queue; afterwards the whole bucket for the id is
erased from the forward index; a driver still missing other entities stays in
the blocked-owner set and is not promoted. -/
theorem c3_on_entity_available (st : DriverState) (id : EntityId)
    (hnd : (bucketOf st.blockedActions id).Nodup)
    (hmem : ∀ w ∈ bucketOf st.blockedActions id, w ∈ st.blockedActionPtrs)
    (hbn : st.blockedActionPtrs.Nodup) :
    (∀ w ∈ bucketOf st.blockedActions id,
        (getDriver (unblockForEntity st id).1 w).missingDependencies =
          eraseA (getDriver st w).missingDependencies id) ∧
    (∀ w ∈ bucketOf st.blockedActions id,
        (eraseA (getDriver st w).missingDependencies id = [] →
          w ∉ (unblockForEntity st id).1.blockedActionPtrs ∧
          w ∈ (unblockForEntity st id).2) ∧
        (eraseA (getDriver st w).missingDependencies id ≠ [] →
          w ∈ (unblockForEntity st id).1.blockedActionPtrs ∧
          w ∉ (unblockForEntity st id).2)) ∧
    (unblockForEntity st id).1.blockedActions =
      st.blockedActions.filter (fun p => p.1 ≠ id) ∧
    (unblockForEntity st id).1.pendingActions =
      st.pendingActions ++ (unblockForEntity st id).2 := by
  have hmiss : ∀ w ∈ bucketOf st.blockedActions id,
      (getDriver (unblockGo st id (bucketOf st.blockedActions id)).1 w).missingDependencies =
        eraseA (getDriver st w).missingDependencies id := by
    intro w hw
    rw [unblockGo_record_mem id _ st hnd w hw]
  refine ⟨?_, ?_, ?_, ?_⟩
  · intro w hw
    rw [unblockForEntity_getDriver]
    exact hmiss w hw
  · intro w hw
    have hkey := unblockGo_promote id (bucketOf st.blockedActions id) st hnd hmem hbn w hw
    rw [unblockForEntity_ptrs, unblockForEntity_promoted]
    constructor
    · intro he
      exact hkey.1 (by rw [hmiss w hw]; exact he)
    · intro he
      exact hkey.2 (by rw [hmiss w hw]; exact he)
  · rw [unblockForEntity_blockedActions, unblockGo_blocked]
  · rw [unblockForEntity_pending, unblockForEntity_promoted, unblockGo_pending]

theorem c3_on_entity_available_witness :
    (getDriver (unblockForEntity exBlockSt 2).1 0).missingDependencies =
        eraseA (getDriver exBlockSt 0).missingDependencies 2 ∧
    (0 ∉ (unblockForEntity exBlockSt 2).1.blockedActionPtrs ∧
        0 ∈ (unblockForEntity exBlockSt 2).2) ∧
    (1 ∈ (unblockForEntity exBlockSt 2).1.blockedActionPtrs ∧
        1 ∉ (unblockForEntity exBlockSt 2).2) ∧
    (unblockForEntity exBlockSt 2).1.blockedActions = [] ∧
    (unblockForEntity exBlockSt 2).1.pendingActions = (unblockForEntity exBlockSt 2).2 := by
  obtain ⟨h1, h2, h3, h4⟩ :=
    c3_on_entity_available exBlockSt 2 (by decide) (by decide) (by decide)
  refine ⟨h1 0 (by decide), (h2 0 (by decide)).1 (by decide),
    (h2 1 (by decide)).2 (by decide), h3.trans (by decide), h4.trans (by decide)⟩

/-! Claim theorem for EntityIndex publication. -/

/-- Claim C7: publication into the EntityIndex (the insertA into entityMap
performed per entity id in the commit loop) is last-writer-wins and
idempotent: after publishing (id, f) lookup of id yields f; republishing the
identical pair changes nothing; other keys are untouched; publishing a
different file replaces the provider; and a finalize of a driver without
missing dependencies never adds a driver to the blocked set and never adds a
driver to the active set. -/
theorem c7_publish_idempotent (m : List (EntityId × FileId)) (id k : EntityId) (f f' : FileId)
    (hk : k ≠ id) (env : Env) (st : DriverState) (d : DriverId)
    (hm : (getDriver st d).missingDependencies = []) :
    lookupA (insertA m id f) id = some f ∧
    insertA (insertA m id f) id f = insertA m id f ∧
    lookupA (insertA m id f') k = lookupA m k ∧
    lookupA (insertA (insertA m id f) id f') id = some f' ∧
    (∀ w ∈ (returned env st d).1.blockedActionPtrs, w ∈ st.blockedActionPtrs) ∧
    (∀ w ∈ (returned env st d).1.activeActions, w ∈ st.activeActions) := by
  refine ⟨lookupA_insertA_self m id f, insertA_insertA_same m id f,
    lookupA_insertA_ne m id k f' hk, lookupA_insertA_self (insertA m id f) id f',
    returned_ptrs_sub env st d hm, ?_⟩
  intro w hw
  rw [returned_active] at hw
  exact List.mem_of_mem_erase hw

theorem c7_publish_idempotent_witness :
    lookupA (insertA ([] : List (EntityId × FileId)) 1 5) 1 = some 5 ∧
    insertA (insertA ([] : List (EntityId × FileId)) 1 5) 1 5 = insertA [] 1 5 ∧
    lookupA (insertA ([] : List (EntityId × FileId)) 1 6) 2 = lookupA [] 2 ∧
    lookupA (insertA (insertA ([] : List (EntityId × FileId)) 1 5) 1 6) 1 = some 6 ∧
    9 ∈ exC7St.blockedActionPtrs := by
  obtain ⟨h1, h2, h3, h4, h5, h6⟩ :=
    c7_publish_idempotent [] 1 2 5 6 (by decide) envNone exC7St 0 (by decide)
  exact ⟨h1, h2, h3, h4, h5 9 (by decide)⟩

/-! Claim theorems for the BuildContext surface. -/

/-- Claim C8: for a RUNNING driver, findProvider returns the provider from the
EntityIndex when present; when absent it returns none and records (id, title)
in missingDependencies as its only change; findOptionalProvider performs the
same lookup and never modifies the state. -/
theorem c8_find_provider (st : DriverState) (d : DriverId) (id : EntityId) (title : String)
    (hrun : (getDriver st d).state = DState.running) :
    (∀ f, lookupA st.entityMap id = some f →
        findProvider st d id title = Except.ok (st, some f) ∧
        findOptionalProvider st d id = Except.ok (some f)) ∧
    (lookupA st.entityMap id = none →
        findProvider st d id title =
          Except.ok
            (setDriver st d
              { getDriver st d with
                missingDependencies :=
                  insertA (getDriver st d).missingDependencies id title }, none) ∧
        findOptionalProvider st d id = Except.ok none) := by
  constructor
  · intro f hf
    simp [findProvider, findOptionalProvider, hrun, hf]
  · intro hf
    simp [findProvider, findOptionalProvider, hrun, hf]

theorem c8_find_provider_witness :
    (findProvider exRunSt 0 1 titleT = Except.ok (exRunSt, some 10) ∧
      findOptionalProvider exRunSt 0 1 = Except.ok (some 10)) ∧
    (findProvider exRunSt 0 2 titleT =
        Except.ok
          (setDriver exRunSt 0
            { getDriver exRunSt 0 with
              missingDependencies :=
                insertA (getDriver exRunSt 0).missingDependencies 2 titleT }, none) ∧
      findOptionalProvider exRunSt 0 2 = Except.ok none) :=
  ⟨(c8_find_provider exRunSt 0 1 titleT (by decide)).1 10 (by decide),
   (c8_find_provider exRunSt 0 2 titleT (by decide)).2 (by decide)⟩

/-- Claim C4: success and passed called on a RUNNING driver with non-empty
missingDependencies fail synchronously with an error, leaving the state
untouched and enqueuing nothing; with missingDependencies empty they
transition to SUCCEEDED resp. PASSED and enqueue a completion callback (the
Bool true). -/
theorem c4_success_passed_contract (st : DriverState) (d : DriverId)
    (hrun : (getDriver st d).state = DState.running) :
    ((getDriver st d).missingDependencies ≠ [] →
        success st d = Except.error errReportedSuccess ∧
        passed st d = Except.error errReportedSuccess) ∧
    ((getDriver st d).missingDependencies = [] →
        success st d =
          Except.ok (setDriver st d { getDriver st d with state := DState.succeeded }, true) ∧
        passed st d =
          Except.ok (setDriver st d { getDriver st d with state := DState.passed }, true)) := by
  constructor <;> intro h <;> simp [success, passed, hrun, h]

theorem c4_success_passed_contract_witness :
    (success exMissSt 0 = Except.error errReportedSuccess ∧
      passed exMissSt 0 = Except.error errReportedSuccess) ∧
    (success exRunSt 0 =
        Except.ok (setDriver exRunSt 0 { getDriver exRunSt 0 with state := DState.succeeded },
          true) ∧
      passed exRunSt 0 =
        Except.ok (setDriver exRunSt 0 { getDriver exRunSt 0 with state := DState.passed },
          true)) :=
  ⟨(c4_success_passed_contract exMissSt 0 (by decide)).1 (by decide),
   (c4_success_passed_contract exRunSt 0 (by decide)).2 (by decide)⟩

/-! Claim theorems for shutdown. -/

theorem lookupA_failBlocked_notmem (m : List (DriverId × ActionDriver)) (l : List DriverId)
    (d : DriverId) (hd : d ∉ l) : lookupA (failBlocked m l) d = lookupA m d := by
  induction l generalizing m with
  | nil => rfl
  | cons x rest ih =>
    simp only [List.mem_cons, not_or] at hd
    simp only [failBlocked]
    rw [ih _ hd.2, lookupA_insertA_ne _ _ _ _ hd.1]

theorem failBlocked_task (m : List (DriverId × ActionDriver)) (l : List DriverId)
    (d : DriverId) (hd : d ∈ l) :
    ((lookupA (failBlocked m l) d).getD default).task = TaskState.failed := by
  induction l generalizing m with
  | nil => cases hd
  | cons x rest ih =>
    by_cases hmem : d ∈ rest
    · simp only [failBlocked]
      exact ih _ hmem
    · have hx : d = x := by
        rcases List.mem_cons.mp hd with h | h
        · exact h
        · exact absurd h hmem
      subst hx
      simp only [failBlocked]
      rw [lookupA_failBlocked_notmem _ _ _ hmem, lookupA_insertA_self]
      rfl

/-- Claim C9: destroying the Driver sets the Dashboard task of every action
still in the blocked set to FAILED. -/
theorem c9_shutdown_blocked_failed (st : DriverState) (d : DriverId)
    (hd : d ∈ st.blockedActionPtrs) :
    (getDriver (driverDestroy st) d).task = TaskState.failed := by
  simpa [driverDestroy, getDriver] using
    failBlocked_task st.drivers st.blockedActionPtrs d hd

theorem c9_shutdown_blocked_failed_witness :
    (getDriver (driverDestroy exShutSt) 3).task = TaskState.failed :=
  c9_shutdown_blocked_failed exShutSt 3 (by decide)

/-! Claim theorem for the LIFO pending queue. -/

/-- Claim C5: startSomeActions pops the back of the pending queue, so the most
recently enqueued not-yet-started action is the first to be started. -/
theorem c5_pending_lifo (st : DriverState) (rest : List DriverId) (d : DriverId)
    (hcap : st.activeActions.length < st.maxConcurrentActions)
    (hpend : st.pendingActions = rest ++ [d]) :
    ((startSomeActions st).2).head? = some d := by
  simp [startSomeActions, hpend, startGo, hcap]

theorem c5_pending_lifo_witness :
    ((startSomeActions exPendSt).2).head? = some 2 :=
  c5_pending_lifo exPendSt [1] 2 (by decide) (by decide)

/-! The finalize trace and its ordering: claim C1. -/

theorem noLaterMatch_of_no_q (p q : Event → Bool) (l : List Event)
    (h : l.any q = false) : noLaterMatch p q l = true := by
  induction l with
  | nil => rfl
  | cons e rest ih =>
    simp only [List.any_cons, Bool.or_eq_false_iff] at h
    simp only [noLaterMatch, Bool.and_eq_true, Bool.or_eq_true, Bool.not_eq_true']
    exact ⟨Or.inr h.2, ih h.2⟩

theorem noLaterMatch_of_no_p (p q : Event → Bool) (l : List Event)
    (h : l.any p = false) : noLaterMatch p q l = true := by
  induction l with
  | nil => rfl
  | cons e rest ih =>
    simp only [List.any_cons, Bool.or_eq_false_iff] at h
    simp only [noLaterMatch, Bool.and_eq_true, Bool.or_eq_true, Bool.not_eq_true']
    exact ⟨Or.inl h.1, ih h.2⟩

theorem noLaterMatch_append_of (p q : Event → Bool) (a b : List Event)
    (ha : noLaterMatch p q a = true) (hb : noLaterMatch p q b = true)
    (hcross : a.any p = true → b.any q = false) :
    noLaterMatch p q (a ++ b) = true := by
  induction a with
  | nil => exact hb
  | cons e rest ih =>
    simp only [noLaterMatch, Bool.and_eq_true, Bool.or_eq_true, Bool.not_eq_true'] at ha
    simp only [List.cons_append, noLaterMatch, Bool.and_eq_true, Bool.or_eq_true,
      Bool.not_eq_true']
    refine ⟨?_, ih ha.2 (fun hr => hcross (by simp [List.any_cons, hr]))⟩
    by_cases hpe : p e = true
    · have hbq : b.any q = false := hcross (by simp [List.any_cons, hpe])
      rcases ha.1 with h | h
      · exact Or.inl h
      · exact Or.inr (by simp [List.any_append, h, hbq])
    · exact Or.inl (by simpa using hpe)

theorem fireTriggersGo_trace (env : Env) (id : EntityId) (f : FileId)
    (facs : List FactoryId) : ∀ st : DriverState,
    (fireTriggersGo env st id f facs).2 = facs.map (fun fac => Event.trigger id f fac) := by
  induction facs with
  | nil => intro st; rfl
  | cons fac rest ih =>
    intro st
    simp [fireTriggersGo, ih]

theorem scanOutputs_trace (env : Env) (outs : List FileId) : ∀ st : DriverState,
    (scanOutputs env st outs).2 = outs.map Event.scan := by
  induction outs with
  | nil => intro st; rfl
  | cons o rest ih =>
    intro st
    simp [scanOutputs, ih]

theorem processEntity_trace (env : Env) (st : DriverState) (f : FileId) (e : EntityId) :
    (processEntity env st f e).2 =
      Event.publish e f ::
        ((bucketOf st.blockedActions e).map (fun w => Event.unblock e w) ++
          (bucketOf st.triggers e).map (fun fac => Event.trigger e f fac)) := by
  simp only [processEntity, fireTriggers]
  rw [fireTriggersGo_trace]
  rw [unblockForEntity_triggers, unblockGo_triggers]

theorem bucketOf_eq_nil (m : List (Nat × Nat)) (id : Nat)
    (h : ∀ p ∈ m, p.1 ≠ id) : bucketOf m id = [] := by
  unfold bucketOf
  rw [List.map_eq_nil_iff]
  rw [List.filter_eq_nil_iff]
  intro p hp
  simpa using h p hp

theorem processEntity_blocked_ne (env : Env) (st : DriverState) (f : FileId)
    (e id : EntityId) (h : ∀ p ∈ st.blockedActions, p.1 ≠ id) :
    ∀ p ∈ (processEntity env st f e).1.blockedActions, p.1 ≠ id := by
  intro p hp
  rw [processEntity_blocked] at hp
  exact h p (List.mem_filter.mp hp).1

theorem processEntity_trace_no_unb (env : Env) (st : DriverState) (f : FileId)
    (e id : EntityId) (h : ∀ p ∈ st.blockedActions, p.1 ≠ id) :
    (processEntity env st f e).2.any (isUnbFor id) = false := by
  rw [processEntity_trace]
  by_cases he : e = id
  · subst he
    rw [bucketOf_eq_nil st.blockedActions e h]
    simp [isUnbFor, List.any_map, Function.comp]
  · simp [isUnbFor, List.any_map, Function.comp, he]

theorem processEntity_trace_trig (env : Env) (st : DriverState) (f : FileId)
    (e id : EntityId) (h : (processEntity env st f e).2.any (isTrigFor id) = true) :
    e = id := by
  rw [processEntity_trace] at h
  simp only [List.any_cons, List.any_append, Bool.or_eq_true] at h
  rcases h with h | h | h
  · simp [isTrigFor] at h
  · rcases List.any_eq_true.mp h with ⟨w, hw, hcontra⟩
    obtain ⟨x, hx, rfl⟩ := List.mem_map.mp hw
    simp [isTrigFor] at hcontra
  · rcases List.any_eq_true.mp h with ⟨w, hw, hd⟩
    obtain ⟨x, hx, rfl⟩ := List.mem_map.mp hw
    exact of_decide_eq_true hd

theorem processEntity_trace_ok (env : Env) (st : DriverState) (f : FileId)
    (e id : EntityId) :
    noLaterMatch (isTrigFor id) (isUnbFor id) (processEntity env st f e).2 = true := by
  rw [processEntity_trace]
  simp only [noLaterMatch, Bool.and_eq_true, Bool.or_eq_true, Bool.not_eq_true']
  refine ⟨Or.inl (by simp [isTrigFor]), ?_⟩
  apply noLaterMatch_append_of
  · apply noLaterMatch_of_no_p
    simp [isTrigFor, List.any_map, Function.comp]
  · apply noLaterMatch_of_no_q
    simp [isUnbFor, List.any_map, Function.comp]
  · intro hp
    simp [isTrigFor, List.any_map, Function.comp] at hp

theorem processEntities_no_unb (env : Env) (f : FileId) (id : EntityId)
    (es : List EntityId) : ∀ st : DriverState, (∀ p ∈ st.blockedActions, p.1 ≠ id) →
    ((processEntities env st f es).2.any (isUnbFor id) = false ∧
     (∀ p ∈ (processEntities env st f es).1.blockedActions, p.1 ≠ id)) := by
  induction es with
  | nil => intro st h; exact ⟨rfl, h⟩
  | cons e rest ih =>
    intro st h
    have hhead := processEntity_trace_no_unb env st f e id h
    have hpres := processEntity_blocked_ne env st f e id h
    obtain ⟨ih1, ih2⟩ := ih (processEntity env st f e).1 hpres
    simp only [processEntities]
    exact ⟨by simp [List.any_append, hhead, ih1], ih2⟩

theorem processEntities_trig (env : Env) (f : FileId) (id : EntityId)
    (es : List EntityId) : ∀ st : DriverState,
    (processEntities env st f es).2.any (isTrigFor id) = true →
    (∀ p ∈ (processEntities env st f es).1.blockedActions, p.1 ≠ id) := by
  induction es with
  | nil => intro st h; simp [processEntities] at h
  | cons e rest ih =>
    intro st h
    simp only [processEntities, List.any_append, Bool.or_eq_true] at h
    rcases h with hhead | htail
    · obtain rfl := processEntity_trace_trig env st f e id hhead
      have hne : ∀ p ∈ (processEntity env st f e).1.blockedActions, p.1 ≠ e := by
        intro p hp
        rw [processEntity_blocked] at hp
        simpa using (List.mem_filter.mp hp).2
      exact (processEntities_no_unb env f e rest _ hne).2
    · exact ih _ htail

theorem processEntities_ok (env : Env) (f : FileId) (id : EntityId)
    (es : List EntityId) : ∀ st : DriverState,
    noLaterMatch (isTrigFor id) (isUnbFor id) (processEntities env st f es).2 = true := by
  induction es with
  | nil => intro st; rfl
  | cons e rest ih =>
    intro st
    simp only [processEntities]
    apply noLaterMatch_append_of
    · exact processEntity_trace_ok env st f e id
    · exact ih _
    · intro hp
      obtain rfl := processEntity_trace_trig env st f e id hp
      have hne : ∀ p ∈ (processEntity env st f e).1.blockedActions, p.1 ≠ e := by
        intro p hp2
        rw [processEntity_blocked] at hp2
        simpa using (List.mem_filter.mp hp2).2
      exact (processEntities_no_unb env f e rest _ hne).1

theorem processProvisions_no_unb (env : Env) (id : EntityId) (ps : List Provision) :
    ∀ st : DriverState, (∀ p ∈ st.blockedActions, p.1 ≠ id) →
    ((processProvisions env st ps).2.any (isUnbFor id) = false ∧
     (∀ p ∈ (processProvisions env st ps).1.blockedActions, p.1 ≠ id)) := by
  induction ps with
  | nil => intro st h; exact ⟨rfl, h⟩
  | cons pr rest ih =>
    intro st h
    obtain ⟨h1, h2⟩ := processEntities_no_unb env pr.file id pr.entities
      { st with filePtrs :=
          if pr.file ∈ st.filePtrs then st.filePtrs else st.filePtrs ++ [pr.file] } h
    obtain ⟨ih1, ih2⟩ := ih _ h2
    simp only [processProvisions]
    exact ⟨by simp [List.any_append, h1, ih1], ih2⟩

theorem processProvisions_trig (env : Env) (id : EntityId) (ps : List Provision) :
    ∀ st : DriverState,
    (processProvisions env st ps).2.any (isTrigFor id) = true →
    (∀ p ∈ (processProvisions env st ps).1.blockedActions, p.1 ≠ id) := by
  induction ps with
  | nil => intro st h; simp [processProvisions] at h
  | cons pr rest ih =>
    intro st h
    simp only [processProvisions, List.any_append, Bool.or_eq_true] at h
    rcases h with hhead | htail
    · have hne := processEntities_trig env pr.file id pr.entities _ hhead
      exact (processProvisions_no_unb env id rest _ hne).2
    · exact ih _ htail

theorem processProvisions_ok (env : Env) (id : EntityId) (ps : List Provision) :
    ∀ st : DriverState,
    noLaterMatch (isTrigFor id) (isUnbFor id) (processProvisions env st ps).2 = true := by
  induction ps with
  | nil => intro st; rfl
  | cons pr rest ih =>
    intro st
    simp only [processProvisions]
    apply noLaterMatch_append_of
    · exact processEntities_ok env pr.file id pr.entities _
    · exact ih _
    · intro hp
      have hne := processEntities_trig env pr.file id pr.entities _ hp
      exact (processProvisions_no_unb env id rest _ hne).1

theorem processEntity_trace_no_scan (env : Env) (st : DriverState) (f : FileId)
    (e : EntityId) : (processEntity env st f e).2.any isScanEv = false := by
  rw [processEntity_trace]
  simp [isScanEv, List.any_map, Function.comp]

theorem processEntities_no_scan (env : Env) (f : FileId) (es : List EntityId) :
    ∀ st : DriverState, (processEntities env st f es).2.any isScanEv = false := by
  induction es with
  | nil => intro st; rfl
  | cons e rest ih =>
    intro st
    simp only [processEntities]
    simp [List.any_append, processEntity_trace_no_scan, ih]

theorem processProvisions_no_scan (env : Env) (ps : List Provision) :
    ∀ st : DriverState, (processProvisions env st ps).2.any isScanEv = false := by
  induction ps with
  | nil => intro st; rfl
  | cons pr rest ih =>
    intro st
    simp only [processProvisions]
    simp [List.any_append, processEntities_no_scan, ih]

theorem scanOutputs_no_trig (env : Env) (outs : List FileId) (st : DriverState) :
    (scanOutputs env st outs).2.any isTrigEv = false := by
  rw [scanOutputs_trace]
  simp [isTrigEv, List.any_map, Function.comp]

theorem scanOutputs_no_unb (env : Env) (outs : List FileId) (st : DriverState)
    (id : EntityId) : (scanOutputs env st outs).2.any (isUnbFor id) = false := by
  rw [scanOutputs_trace]
  simp [isUnbFor, List.any_map, Function.comp]

/-- Claim C1, amended: within a single finalize the entity ids of the
provisions are processed sequentially; for each entity id, all BlockingIndex
unblocks for that id happen before any trigger fires for that same id, and all
triggers (for all ids) fire before the DiscoveryScanner runs on any output.
The original cross-entity claim — all unblocks of all entities before any
trigger — fails; see the counterexample. -/
theorem c1_ordering_amended (env : Env) (st : DriverState) (d : DriverId) :
    (∀ id, noLaterMatch (isTrigFor id) (isUnbFor id) (returned env st d).2 = true) ∧
    noLaterMatch isScanEv isTrigEv (returned env st d).2 = true := by
  by_cases hm : (getDriver st d).missingDependencies = []
  · by_cases hs : (getDriver st d).state = DState.succeeded ∨
        (getDriver st d).state = DState.passed
    · constructor
      · intro id
        simp only [returned]
        rw [if_pos hm, if_pos hs]
        apply noLaterMatch_append_of
        · apply noLaterMatch_append_of
          · exact processProvisions_ok env id _ _
          · exact noLaterMatch_of_no_q _ _ _ (scanOutputs_no_unb env _ _ id)
          · intro _
            exact scanOutputs_no_unb env _ _ id
        · exact noLaterMatch_of_no_q _ _ _ (by simp [isUnbFor])
        · intro _
          simp [isUnbFor]
      · simp only [returned]
        rw [if_pos hm, if_pos hs]
        apply noLaterMatch_append_of
        · apply noLaterMatch_append_of
          · exact noLaterMatch_of_no_p _ _ _ (processProvisions_no_scan env _ _)
          · exact noLaterMatch_of_no_q _ _ _ (scanOutputs_no_trig env _ _)
          · intro _
            exact scanOutputs_no_trig env _ _
        · exact noLaterMatch_of_no_q _ _ _ (by simp [isTrigEv])
        · intro _
          simp [isTrigEv]
    · constructor
      · intro id
        simp only [returned]
        rw [if_pos hm, if_neg hs]
        simp [noLaterMatch, isTrigFor, isUnbFor]
      · simp only [returned]
        rw [if_pos hm, if_neg hs]
        simp [noLaterMatch, isScanEv, isTrigEv]
  · constructor
    · intro id
      simp only [returned]
      rw [if_neg hm]
      simp [noLaterMatch, isTrigFor, isUnbFor]
    · simp only [returned]
      rw [if_neg hm]
      simp [noLaterMatch, isScanEv, isTrigEv]

/-- Claim C1 as stated is false: in the finalize of a driver providing
entities 1 and 2 from one file, with a trigger registered on entity 1 and a
driver blocked on entity 2, the trigger for entity 1 fires before the unblock
for entity 2. -/
theorem c1_counterexample :
    ¬ (noLaterMatch isTrigEv isUnbEv (returned envNone exC1St 0).2 = true ∧
       noLaterMatch isScanEv isTrigEv (returned envNone exC1St 0).2 = true) := by
  decide

/-! Inversion lemmas: what a BuildContext call that returned normally did. -/

theorem findProvider_ok (st st' : DriverState) (d : DriverId) (id : EntityId)
    (title : String) (r : Option FileId)
    (h : findProvider st d id title = Except.ok (st', r)) :
    (getDriver st d).state = DState.running ∧
    ((lookupA st.entityMap id = none ∧ r = none ∧
        st' = setDriver st d
          { getDriver st d with
            missingDependencies :=
              insertA (getDriver st d).missingDependencies id title }) ∨
     (∃ f, lookupA st.entityMap id = some f ∧ r = some f ∧ st' = st)) := by
  by_cases hrun : (getDriver st d).state = DState.running
  · refine ⟨hrun, ?_⟩
    unfold findProvider findOptionalProvider at h
    rw [if_pos hrun, if_pos hrun] at h
    cases hl : lookupA st.entityMap id with
    | none =>
      rw [hl] at h
      simp at h
      exact Or.inl ⟨rfl, h.2.symm, h.1.symm⟩
    | some f =>
      rw [hl] at h
      simp at h
      exact Or.inr ⟨f, rfl, h.2.symm, h.1.symm⟩
  · unfold findProvider at h
    rw [if_neg hrun] at h
    simp at h

theorem provide_ok (st st' : DriverState) (d : DriverId) (f : FileId)
    (es : List EntityId) (h : provide st d f es = Except.ok st') :
    (getDriver st d).state = DState.running ∧
    st' = setDriver st d
      { getDriver st d with provisions := (getDriver st d).provisions ++ [⟨f, es⟩] } := by
  by_cases hrun : (getDriver st d).state = DState.running
  · unfold provide at h
    rw [if_pos hrun] at h
    simp at h
    exact ⟨hrun, h.symm⟩
  · unfold provide at h
    rw [if_neg hrun] at h
    simp at h

theorem logText_ok (st st' : DriverState) (d : DriverId) (t : String)
    (h : logText st d t = Except.ok st') :
    (getDriver st d).state = DState.running ∧
    st' = setDriver st d
      { getDriver st d with taskOutput := (getDriver st d).taskOutput ++ [t] } := by
  by_cases hrun : (getDriver st d).state = DState.running
  · unfold logText at h
    rw [if_pos hrun] at h
    simp at h
    exact ⟨hrun, h.symm⟩
  · unfold logText at h
    rw [if_neg hrun] at h
    simp at h

theorem newOutput_ok (env : Env) (st st' : DriverState) (d : DriverId) (b : String)
    (f : FileId) (h : newOutput env st d b = Except.ok (st', f)) :
    (getDriver st d).state = DState.running ∧
    st' = setDriver st d
      { getDriver st d with
        outputs := (getDriver st d).outputs ++ [env.relative (getDriver st d).tmpdir b] } := by
  by_cases hrun : (getDriver st d).state = DState.running
  · unfold newOutput at h
    rw [if_pos hrun] at h
    simp at h
    exact ⟨hrun, h.1.symm⟩
  · unfold newOutput at h
    rw [if_neg hrun] at h
    simp at h

theorem success_ok (st st' : DriverState) (d : DriverId) (b : Bool)
    (h : success st d = Except.ok (st', b)) :
    (getDriver st d).state = DState.running ∧
    (getDriver st d).missingDependencies = [] ∧
    st' = setDriver st d { getDriver st d with state := DState.succeeded } ∧ b = true := by
  by_cases hrun : (getDriver st d).state = DState.running
  · by_cases hmd : (getDriver st d).missingDependencies = []
    · unfold success at h
      rw [if_pos hrun, if_pos hmd] at h
      simp at h
      exact ⟨hrun, hmd, h.1.symm, h.2⟩
    · unfold success at h
      rw [if_pos hrun, if_neg hmd] at h
      simp at h
  · unfold success at h
    rw [if_neg hrun] at h
    simp at h

theorem passed_ok (st st' : DriverState) (d : DriverId) (b : Bool)
    (h : passed st d = Except.ok (st', b)) :
    (getDriver st d).state = DState.running ∧
    (getDriver st d).missingDependencies = [] ∧
    st' = setDriver st d { getDriver st d with state := DState.passed } ∧ b = true := by
  by_cases hrun : (getDriver st d).state = DState.running
  · by_cases hmd : (getDriver st d).missingDependencies = []
    · unfold passed at h
      rw [if_pos hrun, if_pos hmd] at h
      simp at h
      exact ⟨hrun, hmd, h.1.symm, h.2⟩
    · unfold passed at h
      rw [if_pos hrun, if_neg hmd] at h
      simp at h
  · unfold passed at h
    rw [if_neg hrun] at h
    simp at h

theorem failed_ok (st st' : DriverState) (d : DriverId) (b : Bool)
    (h : failed st d = Except.ok (st', b)) :
    (getDriver st d).state = DState.running ∧
    st' = setDriver st d { getDriver st d with state := DState.failed } ∧ b = true := by
  by_cases hrun : (getDriver st d).state = DState.running
  · unfold failed at h
    rw [if_pos hrun] at h
    simp at h
    exact ⟨hrun, h.1.symm, h.2⟩
  · unfold failed at h
    rw [if_neg hrun] at h
    simp at h

theorem threw_state (st : DriverState) (d : DriverId) (diag : String) :
    (threwException st d diag).1 =
      (if (getDriver st d).state = DState.running then
        setDriver st d
          { getDriver st d with
            taskOutput := (getDriver st d).taskOutput ++ [diag], state := DState.failed }
      else
        setDriver st d
          { getDriver st d with taskOutput := (getDriver st d).taskOutput ++ [diag] }) := by
  by_cases hrun : (getDriver st d).state = DState.running
  · simp [threwException, hrun]
  · simp [threwException, hrun]

/-! Auxiliary association list and bucket lemmas for the scheduler
invariant. -/

theorem lookupA_eraseA_self {β : Type} (m : List (Nat × β)) (k : Nat) :
    lookupA (eraseA m k) k = none := by
  induction m with
  | nil => rfl
  | cons p rest ih =>
    obtain ⟨k₀, v₀⟩ := p
    rw [eraseA_cons]
    by_cases hk : k₀ = k
    · simp [hk, ih]
    · simp [hk, lookupA, ih]

theorem lookupA_isSome_of_mem {β : Type} (m : List (Nat × β)) (k : Nat) (v : β)
    (h : (k, v) ∈ m) : (lookupA m k).isSome = true := by
  induction m with
  | nil => cases h
  | cons p rest ih =>
    obtain ⟨k₀, v₀⟩ := p
    by_cases hk : k₀ = k
    · simp [lookupA, hk]
    · rcases List.mem_cons.mp h with heq | hmem
      · exact absurd (congrArg Prod.fst heq).symm hk
      · simp [lookupA, hk, ih hmem]

theorem keys_insertA_sub {β : Type} (m : List (Nat × β)) (k x : Nat) (v : β)
    (h : x ∈ (insertA m k v).map (fun p => p.1)) :
    x ∈ m.map (fun p => p.1) ∨ x = k := by
  induction m with
  | nil =>
    simp [insertA] at h
    exact Or.inr h
  | cons p rest ih =>
    obtain ⟨k₀, v₀⟩ := p
    by_cases hk : k₀ = k
    · subst hk
      have hins : insertA ((k₀, v₀) :: rest) k₀ v = (k₀, v) :: rest := by
        simp [insertA]
      rw [hins, List.map_cons, List.mem_cons] at h
      rcases h with rfl | h
      · exact Or.inr rfl
      · exact Or.inl (by simp only [List.map_cons, List.mem_cons]; exact Or.inr h)
    · simp only [insertA, if_neg hk, List.map_cons, List.mem_cons] at h
      rcases h with rfl | h
      · exact Or.inl (by simp)
      · rcases ih h with h2 | h2
        · exact Or.inl (by simp only [List.map_cons, List.mem_cons]; exact Or.inr h2)
        · exact Or.inr h2

theorem insertA_keys_nodup {β : Type} (m : List (Nat × β)) (k : Nat) (v : β)
    (h : (m.map (fun p => p.1)).Nodup) :
    ((insertA m k v).map (fun p => p.1)).Nodup := by
  induction m with
  | nil => simp [insertA]
  | cons p rest ih =>
    obtain ⟨k₀, v₀⟩ := p
    simp only [List.map_cons, List.nodup_cons] at h
    by_cases hk : k₀ = k
    · subst hk
      have hins : insertA ((k₀, v₀) :: rest) k₀ v = (k₀, v) :: rest := by
        simp [insertA]
      rw [hins, List.map_cons]
      exact List.nodup_cons.mpr h
    · simp only [insertA, if_neg hk, List.map_cons]
      refine List.nodup_cons.mpr ⟨?_, ih h.2⟩
      intro hmem
      rcases keys_insertA_sub rest k k₀ v hmem with h2 | h2
      · exact h.1 h2
      · exact hk h2

theorem eraseA_keys_nodup {β : Type} (m : List (Nat × β)) (k : Nat)
    (h : (m.map (fun p => p.1)).Nodup) :
    ((eraseA m k).map (fun p => p.1)).Nodup :=
  List.Nodup.sublist ((List.filter_sublist m).map (fun p => p.1)) h

theorem bucketOf_cons (a b : Nat) (t : List (Nat × Nat)) (k : Nat) :
    bucketOf ((a, b) :: t) k = if a = k then b :: bucketOf t k else bucketOf t k := by
  by_cases h : a = k <;> simp [bucketOf, h]

theorem bucketOf_append (m₁ m₂ : List (Nat × Nat)) (k : Nat) :
    bucketOf (m₁ ++ m₂) k = bucketOf m₁ k ++ bucketOf m₂ k := by
  simp [bucketOf, List.filter_append]

theorem mem_bucketOf (m : List (Nat × Nat)) (k w : Nat) :
    w ∈ bucketOf m k ↔ (k, w) ∈ m := by
  unfold bucketOf
  constructor
  · intro h
    obtain ⟨⟨a, b⟩, hp, rfl⟩ := List.mem_map.mp h
    have h2 := List.mem_filter.mp hp
    have h3 : a = k := by simpa using h2.2
    subst h3
    exact h2.1
  · intro h
    exact List.mem_map.mpr ⟨(k, w), List.mem_filter.mpr ⟨h, by simp⟩, rfl⟩

theorem bucketOf_sublist (m₁ m₂ : List (Nat × Nat)) (k : Nat) (h : m₁.Sublist m₂) :
    (bucketOf m₁ k).Sublist (bucketOf m₂ k) :=
  (h.filter _).map _

theorem bucketOf_map_pair (m : List (Nat × String)) (v : Nat) (k : Nat)
    (h : (m.map (fun p => p.1)).Nodup) :
    bucketOf (m.map (fun p => (p.1, v))) k = [] ∨
    bucketOf (m.map (fun p => (p.1, v))) k = [v] := by
  induction m with
  | nil => exact Or.inl rfl
  | cons p rest ih =>
    simp only [List.map_cons, List.nodup_cons] at h
    obtain ⟨hk0, hrest⟩ := h
    rw [List.map_cons, bucketOf_cons]
    by_cases hk : p.1 = k
    · rw [if_pos hk]
      have hnil : bucketOf (rest.map (fun q => (q.1, v))) k = [] := by
        apply bucketOf_eq_nil
        intro q hq
        obtain ⟨r, hr, rfl⟩ := List.mem_map.mp hq
        intro hqk
        exact hk0 (by
          rw [← hk] at hqk
          rw [← hqk]
          exact List.mem_map.mpr ⟨r, hr, rfl⟩)
      rw [hnil]
      exact Or.inr rfl
    · rw [if_neg hk]
      exact ih hrest

/-! The initial state satisfies the invariant; basic record updates preserve
it. -/

theorem getDriver_initState (maxC : Nat) (src tmp : FileId) (x : DriverId) :
    getDriver (initState maxC src tmp) x = default := rfl

theorem default_missingDependencies :
    (default : ActionDriver).missingDependencies = [] := rfl

theorem initState_inv (maxC : Nat) (src tmp : FileId) : Inv (initState maxC src tmp) := by
  refine ⟨?_, ?_, ?_, ?_, ?_, ?_, ?_, ?_, ?_, ?_, ?_, ?_⟩ <;>
    simp [initState, getDriver, lookupA, bucketOf, default_missingDependencies]

/-- A record update that keeps the fields the invariant inspects (state,
missingDependencies, provisions, outputs) preserves the invariant. -/
theorem setDriver_inv_keepfields (st : DriverState) (d : DriverId) (a' : ActionDriver)
    (hst : a'.state = (getDriver st d).state)
    (hmd : a'.missingDependencies = (getDriver st d).missingDependencies)
    (hpr : a'.provisions = (getDriver st d).provisions)
    (hout : a'.outputs = (getDriver st d).outputs)
    (hinv : Inv st) : Inv (setDriver st d a') := by
  have hrec : ∀ x, ((getDriver (setDriver st d a') x).state = (getDriver st x).state ∧
      (getDriver (setDriver st d a') x).missingDependencies =
        (getDriver st x).missingDependencies ∧
      (getDriver (setDriver st d a') x).provisions = (getDriver st x).provisions ∧
      (getDriver (setDriver st d a') x).outputs = (getDriver st x).outputs) := by
    intro x
    by_cases hx : x = d
    · subst hx
      rw [getDriver_setDriver_self]
      exact ⟨hst, hmd, hpr, hout⟩
    · rw [getDriver_setDriver_ne st d x a' hx]
      exact ⟨rfl, rfl, rfl, rfl⟩
  refine ⟨?_, ?_, hinv.pn, hinv.bn, hinv.pdisj, hinv.bp, hinv.baa, hinv.bbp, hinv.bv,
    ?_, hinv.bnd, ?_⟩
  · intro x hx
    obtain ⟨h1, h2, h3, h4⟩ := hrec x
    obtain ⟨c1, c2, c3, c4⟩ := hinv.pc x hx
    exact ⟨h1.trans c1, h2.trans c2, h3.trans c3, h4.trans c4⟩
  · intro x hx
    obtain ⟨h1, h2, h3, h4⟩ := hrec x
    obtain ⟨c1, c2, c3⟩ := hinv.bc x hx
    exact ⟨h1.trans c1, h3.trans c2, h4.trans c3⟩
  · intro p hp
    rw [(hrec p.2).2.1]
    exact hinv.bk p hp
  · intro x
    rw [(hrec x).2.1]
    exact hinv.mkeys x

/-- A record update of a driver that is not in state PENDING preserves the
invariant, provided the new missingDependencies still has no duplicate
keys. -/
theorem setDriver_inv_of_state (st : DriverState) (d : DriverId) (a' : ActionDriver)
    (hst : (getDriver st d).state ≠ DState.pending)
    (hkeys : (a'.missingDependencies.map (fun p => p.1)).Nodup)
    (hinv : Inv st) : Inv (setDriver st d a') := by
  have hnp : ∀ x, (getDriver st x).state = DState.pending → x ≠ d := by
    intro x hx heq
    subst heq
    exact hst hx
  have hrecne : ∀ x, x ≠ d → getDriver (setDriver st d a') x = getDriver st x := by
    intro x hx
    exact getDriver_setDriver_ne st d x a' hx
  refine ⟨?_, ?_, hinv.pn, hinv.bn, hinv.pdisj, hinv.bp, hinv.baa, hinv.bbp, hinv.bv,
    ?_, hinv.bnd, ?_⟩
  · intro x hx
    have hc := hinv.pc x hx
    rw [hrecne x (hnp x hc.1)]
    exact hc
  · intro x hx
    have hc := hinv.bc x hx
    rw [hrecne x (hnp x hc.1)]
    exact hc
  · intro p hp
    have hv := hinv.bv p hp
    have hc := hinv.bc p.2 hv
    rw [hrecne p.2 (hnp p.2 hc.1)]
    exact hinv.bk p hp
  · intro x
    by_cases hx : x = d
    · subst hx
      rw [getDriver_setDriver_self]
      exact hkeys
    · rw [hrecne x hx]
      exact hinv.mkeys x

/-! Queueing fresh actions preserves the invariant. -/

theorem queueNewAction_inv (env : Env) (st : DriverState) (t : FileId)
    (hinv : Inv st) : Inv (queueNewAction env st t) := by
  have hrecne : ∀ x, x < st.nextId → getDriver (queueNewAction env st t) x = getDriver st x := by
    intro x hx
    exact getDriver_queueNewAction_ne env st t x (Nat.ne_of_lt hx)
  refine ⟨?_, ?_, ?_, hinv.bn, ?_, ?_, ?_, ?_, ?_, ?_, ?_, ?_⟩
  · intro x hx
    rw [queueNewAction_pendingActions] at hx
    rcases List.mem_append.mp hx with h | h
    · rw [hrecne x (hinv.bp x h)]
      exact hinv.pc x h
    · have hx2 : x = st.nextId := by simpa using h
      subst hx2
      exact getDriver_queueNewAction_self env st t
  · intro x hx
    rw [queueNewAction_blockedActionPtrs] at hx
    rw [hrecne x (hinv.bbp x hx)]
    exact hinv.bc x hx
  · rw [queueNewAction_pendingActions]
    refine List.Nodup.append hinv.pn (List.nodup_singleton _) ?_
    intro x hx hx2
    have hx3 : x = st.nextId := by simpa using hx2
    exact absurd (hinv.bp x hx) (by rw [hx3]; exact lt_irrefl _)
  · intro x hx
    rw [queueNewAction_pendingActions] at hx
    rw [queueNewAction_blockedActionPtrs]
    rcases List.mem_append.mp hx with h | h
    · exact hinv.pdisj x h
    · have hx2 : x = st.nextId := by simpa using h
      subst hx2
      intro hc
      exact absurd (hinv.bbp _ hc) (lt_irrefl _)
  · intro x hx
    rw [queueNewAction_pendingActions] at hx
    rw [queueNewAction_nextId]
    rcases List.mem_append.mp hx with h | h
    · exact Nat.lt_succ_of_lt (hinv.bp x h)
    · have hx2 : x = st.nextId := by simpa using h
      subst hx2
      exact Nat.lt_succ_self _
  · intro x hx
    rw [queueNewAction_activeActions] at hx
    rw [queueNewAction_nextId]
    exact Nat.lt_succ_of_lt (hinv.baa x hx)
  · intro x hx
    rw [queueNewAction_blockedActionPtrs] at hx
    rw [queueNewAction_nextId]
    exact Nat.lt_succ_of_lt (hinv.bbp x hx)
  · intro p hp
    rw [queueNewAction_blockedActions] at hp
    rw [queueNewAction_blockedActionPtrs]
    exact hinv.bv p hp
  · intro p hp
    rw [queueNewAction_blockedActions] at hp
    rw [hrecne p.2 (hinv.bbp p.2 (hinv.bv p hp))]
    exact hinv.bk p hp
  · intro id
    rw [queueNewAction_blockedActions]
    exact hinv.bnd id
  · intro x
    by_cases hx : x = st.nextId
    · subst hx
      have := getDriver_queueNewAction_self env st t
      rw [this.2.1]
      simp
    · rw [getDriver_queueNewAction_ne env st t x hx]
      exact hinv.mkeys x

theorem queueScanned_inv (env : Env) (l : List (FileId × FileId)) :
    ∀ st : DriverState, Inv st → Inv (queueScanned env st l) := by
  induction l with
  | nil => intro st h; exact h
  | cons p rest ih =>
    intro st h
    exact ih _ (queueNewAction_inv env st p.2 h)

theorem addActionFactory_inv (st : DriverState) (fac : FactoryId) (ids : List EntityId)
    (hinv : Inv st) : Inv (addActionFactory st fac ids) :=
  ⟨hinv.pc, hinv.bc, hinv.pn, hinv.bn, hinv.pdisj, hinv.bp, hinv.baa, hinv.bbp, hinv.bv,
   hinv.bk, hinv.bnd, hinv.mkeys⟩

/-! Starting pending actions preserves the invariant. -/

theorem startGo_inv (l : List DriverId) : ∀ st : DriverState,
    st.pendingActions = [] → Inv st →
    (∀ d ∈ l, cleanDriver (getDriver st d)) → (∀ d ∈ l, d < st.nextId) →
    (∀ d ∈ l, d ∉ st.blockedActionPtrs) → l.Nodup →
    Inv (startGo st l).1 := by
  induction l with
  | nil => intro st _ hinv _ _ _ _; exact hinv
  | cons d rest ih =>
    intro st hpe hinv hclean hlt hnb hnd
    obtain ⟨hdr, hndr⟩ := List.nodup_cons.mp hnd
    have hdnb : d ∉ st.blockedActionPtrs := hnb d (List.mem_cons_self _ _)
    by_cases hc : st.activeActions.length < st.maxConcurrentActions
    · simp only [startGo, if_pos hc]
      have hrecne : ∀ x, x ≠ d →
          getDriver (startDriver { st with activeActions := st.activeActions ++ [d] } d) x =
            getDriver st x := by
        intro x hx
        unfold startDriver
        rw [getDriver_setDriver_ne _ _ _ _ hx]
        rfl
      have hrecd :
          getDriver (startDriver { st with activeActions := st.activeActions ++ [d] } d) d =
            { getDriver st d with state := DState.running, task := TaskState.running } := by
        unfold startDriver
        rw [getDriver_setDriver_self]
        rfl
      have hinv1 : Inv (startDriver { st with activeActions := st.activeActions ++ [d] } d) := by
        refine ⟨?_, ?_, ?_, ?_, ?_, ?_, ?_, ?_, ?_, ?_, ?_, ?_⟩
        · intro x hx
          have hx2 : x ∈ st.pendingActions := hx
          rw [hpe] at hx2
          cases hx2
        · intro x hx
          have hx2 : x ∈ st.blockedActionPtrs := hx
          have hxd : x ≠ d := fun heq => hdnb (heq ▸ hx2)
          rw [hrecne x hxd]
          exact hinv.bc x hx2
        · show st.pendingActions.Nodup
          exact hinv.pn
        · show st.blockedActionPtrs.Nodup
          exact hinv.bn
        · intro x hx
          have hx2 : x ∈ st.pendingActions := hx
          rw [hpe] at hx2
          cases hx2
        · intro x hx
          have hx2 : x ∈ st.pendingActions := hx
          rw [hpe] at hx2
          cases hx2
        · intro x hx
          have hx2 : x ∈ st.activeActions ++ [d] := hx
          show x < st.nextId
          rcases List.mem_append.mp hx2 with h | h
          · exact hinv.baa x h
          · have hx3 : x = d := by simpa using h
            subst hx3
            exact hlt x (List.mem_cons_self _ _)
        · intro x hx
          have hx2 : x ∈ st.blockedActionPtrs := hx
          show x < st.nextId
          exact hinv.bbp x hx2
        · intro p hp
          have hp2 : p ∈ st.blockedActions := hp
          show p.2 ∈ st.blockedActionPtrs
          exact hinv.bv p hp2
        · intro p hp
          have hp2 : p ∈ st.blockedActions := hp
          have hvd : p.2 ≠ d := fun heq => hdnb (heq ▸ hinv.bv p hp2)
          rw [hrecne p.2 hvd]
          exact hinv.bk p hp2
        · intro id
          show (bucketOf st.blockedActions id).Nodup
          exact hinv.bnd id
        · intro x
          by_cases hx : x = d
          · subst hx
            rw [hrecd]
            exact hinv.mkeys x
          · rw [hrecne x hx]
            exact hinv.mkeys x
      refine ih _ ?_ hinv1 ?_ ?_ ?_ hndr
      · show st.pendingActions = []
        exact hpe
      · intro x hx
        rw [hrecne x (fun heq => hdr (heq ▸ hx))]
        exact hclean x (List.mem_cons_of_mem _ hx)
      · intro x hx
        show x < st.nextId
        exact hlt x (List.mem_cons_of_mem _ hx)
      · intro x hx
        show x ∉ st.blockedActionPtrs
        exact hnb x (List.mem_cons_of_mem _ hx)
    · simp only [startGo, if_neg hc]
      refine ⟨?_, ?_, ?_, ?_, ?_, ?_, ?_, ?_, ?_, ?_, ?_, ?_⟩
      · intro x hx
        have hx2 : x ∈ (d :: rest).reverse := hx
        rw [List.mem_reverse] at hx2
        show cleanDriver (getDriver st x)
        exact hclean x hx2
      · intro x hx
        exact hinv.bc x hx
      · show (d :: rest).reverse.Nodup
        exact (List.nodup_reverse).mpr hnd
      · exact hinv.bn
      · intro x hx
        have hx2 : x ∈ (d :: rest).reverse := hx
        rw [List.mem_reverse] at hx2
        show x ∉ st.blockedActionPtrs
        exact hnb x hx2
      · intro x hx
        have hx2 : x ∈ (d :: rest).reverse := hx
        rw [List.mem_reverse] at hx2
        show x < st.nextId
        exact hlt x hx2
      · intro x hx
        exact hinv.baa x hx
      · intro x hx
        exact hinv.bbp x hx
      · intro p hp
        exact hinv.bv p hp
      · intro p hp
        exact hinv.bk p hp
      · intro id
        exact hinv.bnd id
      · intro x
        exact hinv.mkeys x

theorem startSomeActions_inv (st : DriverState) (hinv : Inv st) :
    Inv (startSomeActions st).1 := by
  apply startGo_inv _ _ rfl
  · refine ⟨?_, ?_, ?_, ?_, ?_, ?_, ?_, ?_, ?_, ?_, ?_, ?_⟩
    · intro x hx
      have hx2 : x ∈ ([] : List DriverId) := hx
      cases hx2
    · intro x hx
      exact hinv.bc x hx
    · exact List.nodup_nil
    · exact hinv.bn
    · intro x hx
      have hx2 : x ∈ ([] : List DriverId) := hx
      cases hx2
    · intro x hx
      have hx2 : x ∈ ([] : List DriverId) := hx
      cases hx2
    · intro x hx
      exact hinv.baa x hx
    · intro x hx
      exact hinv.bbp x hx
    · intro p hp
      exact hinv.bv p hp
    · intro p hp
      exact hinv.bk p hp
    · intro id
      exact hinv.bnd id
    · intro x
      exact hinv.mkeys x
  · intro x hx
    rw [List.mem_reverse] at hx
    exact hinv.pc x hx
  · intro x hx
    rw [List.mem_reverse] at hx
    exact hinv.bp x hx
  · intro x hx
    rw [List.mem_reverse] at hx
    exact hinv.pdisj x hx
  · exact (List.nodup_reverse).mpr hinv.pn

/-! The unblock step preserves the invariant. -/

theorem unblockForEntity_inv (st : DriverState) (id : EntityId) (hinv : Inv st) :
    Inv (unblockForEntity st id).1 := by
  have hnd : (bucketOf st.blockedActions id).Nodup := hinv.bnd id
  have hmem : ∀ w ∈ bucketOf st.blockedActions id, w ∈ st.blockedActionPtrs := by
    intro w hw
    exact hinv.bv (id, w) ((mem_bucketOf _ _ _).mp hw)
  have hrmem := unblockGo_record_mem id (bucketOf st.blockedActions id) st hnd
  have hrnot := unblockGo_record_notmem id (bucketOf st.blockedActions id) st
  have hpend := unblockGo_pending id (bucketOf st.blockedActions id) st
  have hpromsub := unblockGo_promoted_sub id (bucketOf st.blockedActions id) st
  have hptrnot := unblockGo_ptrs_notmem id (bucketOf st.blockedActions id) st
  have hptrsub := unblockGo_ptrs_sub id (bucketOf st.blockedActions id) st
  have hptrnodup := unblockGo_ptrs_nodup id (bucketOf st.blockedActions id) st hinv.bn
  have hpromnodup := unblockGo_promoted_nodup id (bucketOf st.blockedActions id) st hnd
  have hpromote := unblockGo_promote id (bucketOf st.blockedActions id) st hnd hmem hinv.bn
  have hblocked := unblockGo_blocked id (bucketOf st.blockedActions id) st
  have hactive := unblockGo_active id (bucketOf st.blockedActions id) st
  have hnext := unblockGo_nextId id (bucketOf st.blockedActions id) st
  have hnotws : ∀ x ∈ st.pendingActions, x ∉ bucketOf st.blockedActions id := by
    intro x hx hc
    exact hinv.pdisj x hx (hmem x hc)
  have hprommiss : ∀ w ∈ (unblockGo st id (bucketOf st.blockedActions id)).2,
      (getDriver (unblockGo st id (bucketOf st.blockedActions id)).1 w).missingDependencies
        = [] := by
    intro w hw
    by_cases hmiss : (getDriver (unblockGo st id
        (bucketOf st.blockedActions id)).1 w).missingDependencies = []
    · exact hmiss
    · exact absurd hw ((hpromote w (hpromsub w hw)).2 hmiss).2
  have hpromptr : ∀ w ∈ (unblockGo st id (bucketOf st.blockedActions id)).2,
      w ∉ (unblockGo st id (bucketOf st.blockedActions id)).1.blockedActionPtrs := by
    intro w hw
    exact ((hpromote w (hpromsub w hw)).1 (hprommiss w hw)).1
  refine ⟨?_, ?_, ?_, ?_, ?_, ?_, ?_, ?_, ?_, ?_, ?_, ?_⟩
  · intro x hx
    rw [unblockForEntity_pending, hpend] at hx
    rcases List.mem_append.mp hx with h | h
    · have hc := hinv.pc x h
      rw [unblockForEntity_getDriver, hrnot x (hnotws x h)]
      exact hc
    · have hin := hpromsub x h
      have hbcw := hinv.bc x (hmem x hin)
      refine ⟨?_, ?_, ?_, ?_⟩
      · rw [unblockForEntity_getDriver, hrmem x hin]
        exact hbcw.1
      · rw [unblockForEntity_getDriver]
        exact hprommiss x h
      · rw [unblockForEntity_getDriver, hrmem x hin]
        exact hbcw.2.1
      · rw [unblockForEntity_getDriver, hrmem x hin]
        exact hbcw.2.2
  · intro x hx
    rw [unblockForEntity_ptrs] at hx
    have hxold := hptrsub x hx
    by_cases hin : x ∈ bucketOf st.blockedActions id
    · have hbcw := hinv.bc x hxold
      refine ⟨?_, ?_, ?_⟩
      · rw [unblockForEntity_getDriver, hrmem x hin]
        exact hbcw.1
      · rw [unblockForEntity_getDriver, hrmem x hin]
        exact hbcw.2.1
      · rw [unblockForEntity_getDriver, hrmem x hin]
        exact hbcw.2.2
    · rw [unblockForEntity_getDriver, hrnot x hin]
      exact hinv.bc x hxold
  · rw [unblockForEntity_pending, hpend]
    refine List.Nodup.append hinv.pn hpromnodup ?_
    intro a ha hb
    exact hnotws a ha (hpromsub a hb)
  · rw [unblockForEntity_ptrs]
    exact hptrnodup
  · intro x hx
    rw [unblockForEntity_pending, hpend] at hx
    rw [unblockForEntity_ptrs]
    rcases List.mem_append.mp hx with h | h
    · intro hc
      exact hinv.pdisj x h ((hptrnot x (hnotws x h)).mp hc)
    · exact hpromptr x h
  · intro x hx
    rw [unblockForEntity_pending, hpend] at hx
    rw [unblockForEntity_nextId, hnext]
    rcases List.mem_append.mp hx with h | h
    · exact hinv.bp x h
    · exact hinv.bbp x (hmem x (hpromsub x h))
  · intro x hx
    rw [unblockForEntity_active, hactive] at hx
    rw [unblockForEntity_nextId, hnext]
    exact hinv.baa x hx
  · intro x hx
    rw [unblockForEntity_ptrs] at hx
    rw [unblockForEntity_nextId, hnext]
    exact hinv.bbp x (hptrsub x hx)
  · intro p hp
    rw [unblockForEntity_blockedActions, hblocked] at hp
    have hp2 := List.mem_filter.mp hp
    have hpm := hp2.1
    have hpne : p.1 ≠ id := by simpa using hp2.2
    have hv := hinv.bv p hpm
    rw [unblockForEntity_ptrs]
    by_cases hin : p.2 ∈ bucketOf st.blockedActions id
    · have hne2 : (getDriver (unblockGo st id
          (bucketOf st.blockedActions id)).1 p.2).missingDependencies ≠ [] := by
        rw [hrmem p.2 hin]
        intro hcon
        have hcon2 : eraseA (getDriver st p.2).missingDependencies id = [] := hcon
        have hk := hinv.bk p hpm
        rw [← lookupA_eraseA_ne (getDriver st p.2).missingDependencies id p.1 hpne] at hk
        rw [hcon2] at hk
        simp [lookupA] at hk
      exact ((hpromote p.2 hin).2 hne2).1
    · exact (hptrnot p.2 hin).mpr hv
  · intro p hp
    rw [unblockForEntity_blockedActions, hblocked] at hp
    have hp2 := List.mem_filter.mp hp
    have hpm := hp2.1
    have hpne : p.1 ≠ id := by simpa using hp2.2
    by_cases hin : p.2 ∈ bucketOf st.blockedActions id
    · rw [unblockForEntity_getDriver, hrmem p.2 hin]
      show (lookupA (eraseA (getDriver st p.2).missingDependencies id) p.1).isSome = true
      rw [lookupA_eraseA_ne _ _ _ hpne]
      exact hinv.bk p hpm
    · rw [unblockForEntity_getDriver, hrnot p.2 hin]
      exact hinv.bk p hpm
  · intro k
    rw [unblockForEntity_blockedActions, hblocked]
    exact List.Nodup.sublist
      (bucketOf_sublist _ _ k (List.filter_sublist _)) (hinv.bnd k)
  · intro x
    by_cases hin : x ∈ bucketOf st.blockedActions id
    · rw [unblockForEntity_getDriver, hrmem x hin]
      show ((eraseA (getDriver st x).missingDependencies id).map (fun p => p.1)).Nodup
      exact eraseA_keys_nodup _ _ (hinv.mkeys x)
    · rw [unblockForEntity_getDriver, hrnot x hin]
      exact hinv.mkeys x

/-! The trigger loop and the commit loops preserve the invariant. -/

theorem fireTriggersGo_inv (env : Env) (id : EntityId) (f : FileId)
    (facs : List FactoryId) : ∀ st : DriverState, Inv st →
    Inv (fireTriggersGo env st id f facs).1 := by
  induction facs with
  | nil => intro st h; exact h
  | cons fac rest ih =>
    intro st h
    show Inv (fireTriggersGo env
      (if env.tryMakeAction fac id f then queueNewAction env st f else st) id f rest).1
    apply ih
    split
    · exact queueNewAction_inv env st f h
    · exact h

theorem processEntity_inv (env : Env) (st : DriverState) (f : FileId) (id : EntityId)
    (h : Inv st) : Inv (processEntity env st f id).1 := by
  have h1 : Inv { st with entityMap := insertA st.entityMap id f } :=
    ⟨h.pc, h.bc, h.pn, h.bn, h.pdisj, h.bp, h.baa, h.bbp, h.bv, h.bk, h.bnd, h.mkeys⟩
  have h2 := unblockForEntity_inv { st with entityMap := insertA st.entityMap id f } id h1
  exact fireTriggersGo_inv env id f
    (bucketOf (unblockForEntity
      { st with entityMap := insertA st.entityMap id f } id).1.triggers id)
    (unblockForEntity { st with entityMap := insertA st.entityMap id f } id).1 h2

theorem processEntities_inv (env : Env) (f : FileId) (es : List EntityId) :
    ∀ st : DriverState, Inv st → Inv (processEntities env st f es).1 := by
  induction es with
  | nil => intro st h; exact h
  | cons e rest ih =>
    intro st h
    exact ih _ (processEntity_inv env st f e h)

theorem processProvisions_inv (env : Env) (ps : List Provision) :
    ∀ st : DriverState, Inv st → Inv (processProvisions env st ps).1 := by
  induction ps with
  | nil => intro st h; exact h
  | cons pr rest ih =>
    intro st h
    have h0 : Inv { st with filePtrs :=
        if pr.file ∈ st.filePtrs then st.filePtrs else st.filePtrs ++ [pr.file] } :=
      ⟨h.pc, h.bc, h.pn, h.bn, h.pdisj, h.bp, h.baa, h.bbp, h.bv, h.bk, h.bnd, h.mkeys⟩
    exact ih _ (processEntities_inv env pr.file pr.entities _ h0)

theorem scanOutputs_inv (env : Env) (outs : List FileId) :
    ∀ st : DriverState, Inv st → Inv (scanOutputs env st outs).1 := by
  induction outs with
  | nil => intro st h; exact h
  | cons o rest ih =>
    intro st h
    exact ih _ (queueScanned_inv env (env.scanned o o) st h)

/-! Record preservation through the commit path: a driver whose state is not
PENDING is never touched by the commit loops, and the id allocator only
grows. -/

theorem queueNewAction_record (env : Env) (st : DriverState) (t : FileId) (d : DriverId)
    (hd : d < st.nextId) :
    getDriver (queueNewAction env st t) d = getDriver st d ∧
    d < (queueNewAction env st t).nextId := by
  refine ⟨getDriver_queueNewAction_ne env st t d (Nat.ne_of_lt hd), ?_⟩
  rw [queueNewAction_nextId]
  exact Nat.lt_succ_of_lt hd

theorem queueScanned_record (env : Env) (l : List (FileId × FileId)) :
    ∀ st : DriverState, ∀ d, d < st.nextId →
    getDriver (queueScanned env st l) d = getDriver st d ∧
    d < (queueScanned env st l).nextId := by
  induction l with
  | nil => intro st d hd; exact ⟨rfl, hd⟩
  | cons p rest ih =>
    intro st d hd
    obtain ⟨h1, h2⟩ := queueNewAction_record env st p.2 d hd
    obtain ⟨h3, h4⟩ := ih (queueNewAction env st p.2) d h2
    exact ⟨h3.trans h1, h4⟩

theorem fireTriggersGo_record (env : Env) (id : EntityId) (f : FileId)
    (facs : List FactoryId) : ∀ st : DriverState, ∀ d, d < st.nextId →
    getDriver (fireTriggersGo env st id f facs).1 d = getDriver st d ∧
    d < (fireTriggersGo env st id f facs).1.nextId := by
  induction facs with
  | nil => intro st d hd; exact ⟨rfl, hd⟩
  | cons fac rest ih =>
    intro st d hd
    by_cases htm : env.tryMakeAction fac id f
    · obtain ⟨h1, h2⟩ := queueNewAction_record env st f d hd
      obtain ⟨h3, h4⟩ := ih (queueNewAction env st f) d h2
      show getDriver (fireTriggersGo env
        (if env.tryMakeAction fac id f then queueNewAction env st f else st)
          id f rest).1 d = getDriver st d ∧
        d < (fireTriggersGo env
          (if env.tryMakeAction fac id f then queueNewAction env st f else st)
            id f rest).1.nextId
      rw [if_pos htm]
      exact ⟨h3.trans h1, h4⟩
    · obtain ⟨h3, h4⟩ := ih st d hd
      show getDriver (fireTriggersGo env
        (if env.tryMakeAction fac id f then queueNewAction env st f else st)
          id f rest).1 d = getDriver st d ∧
        d < (fireTriggersGo env
          (if env.tryMakeAction fac id f then queueNewAction env st f else st)
            id f rest).1.nextId
      rw [if_neg htm]
      exact ⟨h3, h4⟩

theorem unblockForEntity_record (st : DriverState) (id : EntityId) (d : DriverId)
    (hinv : Inv st) (hst : (getDriver st d).state ≠ DState.pending) :
    getDriver (unblockForEntity st id).1 d = getDriver st d ∧
    (unblockForEntity st id).1.nextId = st.nextId := by
  have hdws : d ∉ bucketOf st.blockedActions id := by
    intro hc
    exact hst (hinv.bc d (hinv.bv (id, d) ((mem_bucketOf _ _ _).mp hc))).1
  constructor
  · rw [unblockForEntity_getDriver]
    exact unblockGo_record_notmem id _ st d hdws
  · rw [unblockForEntity_nextId]
    exact unblockGo_nextId id _ st

theorem processEntity_record (env : Env) (st : DriverState) (f : FileId) (id : EntityId)
    (d : DriverId) (hinv : Inv st) (hd : d < st.nextId)
    (hst : (getDriver st d).state ≠ DState.pending) :
    getDriver (processEntity env st f id).1 d = getDriver st d ∧
    d < (processEntity env st f id).1.nextId := by
  have h1 : Inv { st with entityMap := insertA st.entityMap id f } :=
    ⟨hinv.pc, hinv.bc, hinv.pn, hinv.bn, hinv.pdisj, hinv.bp, hinv.baa, hinv.bbp, hinv.bv,
     hinv.bk, hinv.bnd, hinv.mkeys⟩
  obtain ⟨h2, h3⟩ := unblockForEntity_record
    { st with entityMap := insertA st.entityMap id f } id d h1 hst
  obtain ⟨h4, h5⟩ := fireTriggersGo_record env id f
    (bucketOf (unblockForEntity
      { st with entityMap := insertA st.entityMap id f } id).1.triggers id)
    (unblockForEntity { st with entityMap := insertA st.entityMap id f } id).1 d
    (by rw [h3]; exact hd)
  exact ⟨h4.trans h2, h5⟩

theorem processEntities_record (env : Env) (f : FileId) (es : List EntityId) :
    ∀ st : DriverState, ∀ d, Inv st → d < st.nextId →
    (getDriver st d).state ≠ DState.pending →
    getDriver (processEntities env st f es).1 d = getDriver st d ∧
    d < (processEntities env st f es).1.nextId := by
  induction es with
  | nil => intro st d _ hd _; exact ⟨rfl, hd⟩
  | cons e rest ih =>
    intro st d hinv hd hst
    obtain ⟨h1, h2⟩ := processEntity_record env st f e d hinv hd hst
    obtain ⟨h3, h4⟩ := ih (processEntity env st f e).1 d (processEntity_inv env st f e hinv)
      h2 (by rw [h1]; exact hst)
    exact ⟨h3.trans h1, h4⟩

theorem processProvisions_record (env : Env) (ps : List Provision) :
    ∀ st : DriverState, ∀ d, Inv st → d < st.nextId →
    (getDriver st d).state ≠ DState.pending →
    getDriver (processProvisions env st ps).1 d = getDriver st d ∧
    d < (processProvisions env st ps).1.nextId := by
  induction ps with
  | nil => intro st d _ hd _; exact ⟨rfl, hd⟩
  | cons pr rest ih =>
    intro st d hinv hd hst
    have h0 : Inv { st with filePtrs :=
        if pr.file ∈ st.filePtrs then st.filePtrs else st.filePtrs ++ [pr.file] } :=
      ⟨hinv.pc, hinv.bc, hinv.pn, hinv.bn, hinv.pdisj, hinv.bp, hinv.baa, hinv.bbp,
       hinv.bv, hinv.bk, hinv.bnd, hinv.mkeys⟩
    obtain ⟨h1, h2⟩ := processEntities_record env pr.file pr.entities
      { st with filePtrs :=
          if pr.file ∈ st.filePtrs then st.filePtrs else st.filePtrs ++ [pr.file] }
      d h0 hd hst
    obtain ⟨h3, h4⟩ := ih (processEntities env
      { st with filePtrs :=
          if pr.file ∈ st.filePtrs then st.filePtrs else st.filePtrs ++ [pr.file] }
      pr.file pr.entities).1 d
      (processEntities_inv env pr.file pr.entities _ h0) h2 (by rw [h1]; exact hst)
    exact ⟨h3.trans h1, h4⟩

theorem scanOutputs_record (env : Env) (outs : List FileId) :
    ∀ st : DriverState, ∀ d, d < st.nextId →
    getDriver (scanOutputs env st outs).1 d = getDriver st d ∧
    d < (scanOutputs env st outs).1.nextId := by
  induction outs with
  | nil => intro st d hd; exact ⟨rfl, hd⟩
  | cons o rest ih =>
    intro st d hd
    obtain ⟨h1, h2⟩ := queueScanned_record env (env.scanned o o) st d hd
    obtain ⟨h3, h4⟩ := ih (queueScanned env st (env.scanned o o)) d h2
    exact ⟨h3.trans h1, h4⟩

/-! Destruction of a finished driver preserves the invariant. -/

theorem destroyDriver_inv (st : DriverState) (d : DriverId) (hinv : Inv st)
    (hp : ∀ x ∈ st.pendingActions, x ≠ d)
    (hb : ∀ x ∈ st.blockedActionPtrs, x ≠ d) : Inv (destroyDriver st d) := by
  have hrec : ∀ x, x ≠ d → getDriver (destroyDriver st d) x = getDriver st x := by
    intro x hx
    exact getDriver_destroyDriver_ne st d x hx
  refine ⟨?_, ?_, hinv.pn, hinv.bn, hinv.pdisj, hinv.bp, hinv.baa, hinv.bbp, hinv.bv,
    ?_, hinv.bnd, ?_⟩
  · intro x hx
    rw [hrec x (hp x hx)]
    exact hinv.pc x hx
  · intro x hx
    rw [hrec x (hb x hx)]
    exact hinv.bc x hx
  · intro p hq
    rw [hrec p.2 (hb p.2 (hinv.bv p hq))]
    exact hinv.bk p hq
  · intro x
    by_cases hx : x = d
    · subst hx
      have hdef : getDriver (destroyDriver st x) x = default := by
        simp [getDriver, destroyDriver, lookupA_eraseA_self]
      rw [hdef, default_missingDependencies]
      exact List.nodup_nil
    · rw [hrec x hx]
      exact hinv.mkeys x

/-! Finalize preserves the invariant. -/

theorem returned_inv (env : Env) (st : DriverState) (d : DriverId)
    (hd : d ∈ st.activeActions)
    (hs : (getDriver st d).state = DState.succeeded ∨
          (getDriver st d).state = DState.passed ∨
          (getDriver st d).state = DState.failed)
    (hinv : Inv st) : Inv (returned env st d).1 := by
  have hdnp : (getDriver st d).state ≠ DState.pending := by
    rcases hs with h | h | h <;> simp [h]
  have hdnb : d ∉ st.blockedActionPtrs := fun hc => hdnp (hinv.bc d hc).1
  have hdnpend : d ∉ st.pendingActions := fun hc => hdnp (hinv.pc d hc).1
  have hdlt : d < st.nextId := hinv.baa d hd
  have hinv1 : Inv { st with activeActions := st.activeActions.erase d } :=
    ⟨hinv.pc, hinv.bc, hinv.pn, hinv.bn, hinv.pdisj, hinv.bp,
     fun x hx => hinv.baa x (List.mem_of_mem_erase hx), hinv.bbp, hinv.bv, hinv.bk,
     hinv.bnd, hinv.mkeys⟩
  by_cases hm : (getDriver st d).missingDependencies = []
  · by_cases hsucc : (getDriver st d).state = DState.succeeded ∨
        (getDriver st d).state = DState.passed
    · simp only [returned]
      rw [if_pos hm, if_pos hsucc]
      have hinv2 : Inv (setDriver { st with activeActions := st.activeActions.erase d } d
          { getDriver st d with
            task := if (getDriver st d).state = DState.passed then TaskState.passed
                    else TaskState.success }) := by
        apply setDriver_inv_of_state
        · exact hdnp
        · exact hinv.mkeys d
        · exact hinv1
      have hrec2 : getDriver (setDriver
          { st with activeActions := st.activeActions.erase d } d
          { getDriver st d with
            task := if (getDriver st d).state = DState.passed then TaskState.passed
                    else TaskState.success }) d =
          { getDriver st d with
            task := if (getDriver st d).state = DState.passed then TaskState.passed
                    else TaskState.success } := getDriver_setDriver_self _ _ _
      obtain ⟨hr3, hl3⟩ := processProvisions_record env (getDriver st d).provisions _ d hinv2
        hdlt (by rw [hrec2]; exact hdnp)
      have hinv3 := processProvisions_inv env (getDriver st d).provisions _ hinv2
      obtain ⟨hr4, hl4⟩ := scanOutputs_record env (getDriver st d).outputs _ d hl3
      have hinv4 := scanOutputs_inv env (getDriver st d).outputs _ hinv3
      have hstate4 : (getDriver (scanOutputs env (processProvisions env
          (setDriver { st with activeActions := st.activeActions.erase d } d
            { getDriver st d with
              task := if (getDriver st d).state = DState.passed then TaskState.passed
                      else TaskState.success })
          (getDriver st d).provisions).1 (getDriver st d).outputs).1 d).state ≠
          DState.pending := by
        rw [hr4, hr3, hrec2]
        exact hdnp
      apply destroyDriver_inv _ _ hinv4
      · intro x hx heq
        subst heq
        exact hstate4 (hinv4.pc x hx).1
      · intro x hx heq
        subst heq
        exact hstate4 (hinv4.bc x hx).1
    · simp only [returned]
      rw [if_pos hm, if_neg hsucc]
      have hinv2 : Inv (setDriver { st with activeActions := st.activeActions.erase d } d
          { getDriver st d with task := TaskState.failed }) := by
        apply setDriver_inv_of_state
        · exact hdnp
        · exact hinv.mkeys d
        · exact hinv1
      apply destroyDriver_inv _ _ hinv2
      · intro x hx heq
        subst heq
        have hx2 : x ∈ st.pendingActions := hx
        exact hdnpend hx2
      · intro x hx heq
        subst heq
        have hx2 : x ∈ st.blockedActionPtrs := hx
        exact hdnb hx2
  · simp only [returned]
    rw [if_neg hm]
    have hdp : ∀ x ∈ st.pendingActions, x ≠ d := by
      intro x hx heq
      exact hm (by rw [← heq]; exact (hinv.pc x hx).2.1)
    have hdb : ∀ x ∈ st.blockedActionPtrs, x ≠ d := by
      intro x hx heq
      exact hdnp (by rw [← heq]; exact (hinv.bc x hx).1)
    refine ⟨?_, ?_, ?_, ?_, ?_, ?_, ?_, ?_, ?_, ?_, ?_, ?_⟩
    · intro x hx
      have hx2 : x ∈ st.pendingActions := hx
      show cleanDriver (getDriver (setDriver
        { st with activeActions := st.activeActions.erase d } d
        { getDriver st d with
            state := DState.pending, provisions := [], outputs := [],
            task := TaskState.blocked }) x)
      rw [getDriver_setDriver_ne _ _ _ _ (hdp x hx2)]
      exact hinv.pc x hx2
    · intro x hx
      have hx2 : x ∈ st.blockedActionPtrs ++ [d] := hx
      show blockedDriverOk (getDriver (setDriver
        { st with activeActions := st.activeActions.erase d } d
        { getDriver st d with
            state := DState.pending, provisions := [], outputs := [],
            task := TaskState.blocked }) x)
      rcases List.mem_append.mp hx2 with h | h
      · rw [getDriver_setDriver_ne _ _ _ _ (hdb x h)]
        exact hinv.bc x h
      · have hx3 : x = d := by simpa using h
        subst hx3
        rw [getDriver_setDriver_self]
        exact ⟨rfl, rfl, rfl⟩
    · show st.pendingActions.Nodup
      exact hinv.pn
    · show (st.blockedActionPtrs ++ [d]).Nodup
      refine List.Nodup.append hinv.bn (List.nodup_singleton _) ?_
      intro a ha hb2
      have ha2 : a = d := by simpa using hb2
      exact hdb a ha ha2
    · intro x hx
      have hx2 : x ∈ st.pendingActions := hx
      show x ∉ st.blockedActionPtrs ++ [d]
      intro hc
      rcases List.mem_append.mp hc with h | h
      · exact hinv.pdisj x hx2 h
      · exact hdp x hx2 (by simpa using h)
    · intro x hx
      have hx2 : x ∈ st.pendingActions := hx
      show x < st.nextId
      exact hinv.bp x hx2
    · intro x hx
      have hx2 : x ∈ st.activeActions.erase d := hx
      show x < st.nextId
      exact hinv.baa x (List.mem_of_mem_erase hx2)
    · intro x hx
      have hx2 : x ∈ st.blockedActionPtrs ++ [d] := hx
      show x < st.nextId
      rcases List.mem_append.mp hx2 with h | h
      · exact hinv.bbp x h
      · rw [show x = d from by simpa using h]
        exact hdlt
    · intro p hp
      have hp2 : p ∈ st.blockedActions ++
          (getDriver st d).missingDependencies.map (fun q => (q.1, d)) := hp
      show p.2 ∈ st.blockedActionPtrs ++ [d]
      rcases List.mem_append.mp hp2 with h | h
      · exact List.mem_append.mpr (Or.inl (hinv.bv p h))
      · obtain ⟨q, hq, rfl⟩ := List.mem_map.mp h
        exact List.mem_append.mpr (Or.inr (by simp))
    · intro p hp
      have hp2 : p ∈ st.blockedActions ++
          (getDriver st d).missingDependencies.map (fun q => (q.1, d)) := hp
      show (lookupA (getDriver (setDriver
        { st with activeActions := st.activeActions.erase d } d
        { getDriver st d with
            state := DState.pending, provisions := [], outputs := [],
            task := TaskState.blocked }) p.2).missingDependencies p.1).isSome = true
      rcases List.mem_append.mp hp2 with h | h
      · rw [getDriver_setDriver_ne _ _ _ _ (hdb p.2 (hinv.bv p h))]
        exact hinv.bk p h
      · obtain ⟨q, hq, rfl⟩ := List.mem_map.mp h
        rw [getDriver_setDriver_self]
        show (lookupA (getDriver st d).missingDependencies q.1).isSome = true
        exact lookupA_isSome_of_mem _ q.1 q.2 (by simpa using hq)
    · intro k
      show (bucketOf (st.blockedActions ++
        (getDriver st d).missingDependencies.map (fun q => (q.1, d))) k).Nodup
      rw [bucketOf_append]
      rcases bucketOf_map_pair (getDriver st d).missingDependencies d k
          (hinv.mkeys d) with hnil | hone
      · rw [hnil, List.append_nil]
        exact hinv.bnd k
      · rw [hone]
        refine List.Nodup.append (hinv.bnd k) (List.nodup_singleton _) ?_
        intro a ha hb2
        have ha2 : a = d := by simpa using hb2
        subst ha2
        exact hdb a (hinv.bv (k, a) ((mem_bucketOf _ _ _).mp ha)) rfl
    · intro x
      show ((getDriver (setDriver
        { st with activeActions := st.activeActions.erase d } d
        { getDriver st d with
            state := DState.pending, provisions := [], outputs := [],
            task := TaskState.blocked }) x).missingDependencies.map (fun p => p.1)).Nodup
      by_cases hx : x = d
      · subst hx
        rw [getDriver_setDriver_self]
        exact hinv.mkeys x
      · rw [getDriver_setDriver_ne _ _ _ _ hx]
        exact hinv.mkeys x

/-! Every event-loop turn preserves the invariant. -/

theorem turn_inv (env : Env) (st st' : DriverState) (t : Turn env st st')
    (hinv : Inv st) : Inv st' := by
  cases t with
  | startAll =>
    exact startSomeActions_inv _
      (queueScanned_inv env (env.scanned st.src st.tmp) st hinv)
  | addFac fac ids => exact addActionFactory_inv st fac ids hinv
  | find _ d id title r h2 =>
    obtain ⟨hrun, hcase⟩ := findProvider_ok st st' d id title r h2
    rcases hcase with ⟨-, -, rfl⟩ | ⟨f, -, -, rfl⟩
    · apply setDriver_inv_of_state
      · rw [hrun]
        intro hc
        cases hc
      · exact insertA_keys_nodup _ _ _ (hinv.mkeys d)
      · exact hinv
    · exact hinv
  | prov _ d f es h2 =>
    obtain ⟨hrun, rfl⟩ := provide_ok st st' d f es h2
    apply setDriver_inv_of_state
    · rw [hrun]
      intro hc
      cases hc
    · exact hinv.mkeys d
    · exact hinv
  | out _ d b f h2 =>
    obtain ⟨hrun, rfl⟩ := newOutput_ok env st st' d b f h2
    apply setDriver_inv_of_state
    · rw [hrun]
      intro hc
      cases hc
    · exact hinv.mkeys d
    · exact hinv
  | logTurn _ d t h2 =>
    obtain ⟨hrun, rfl⟩ := logText_ok st st' d t h2
    exact setDriver_inv_keepfields _ _ _ rfl rfl rfl rfl hinv
  | succ _ d b h2 =>
    obtain ⟨hrun, -, rfl, -⟩ := success_ok st st' d b h2
    apply setDriver_inv_of_state
    · rw [hrun]
      intro hc
      cases hc
    · exact hinv.mkeys d
    · exact hinv
  | pass _ d b h2 =>
    obtain ⟨hrun, -, rfl, -⟩ := passed_ok st st' d b h2
    apply setDriver_inv_of_state
    · rw [hrun]
      intro hc
      cases hc
    · exact hinv.mkeys d
    · exact hinv
  | fail _ d b h2 =>
    obtain ⟨hrun, rfl, -⟩ := failed_ok st st' d b h2
    apply setDriver_inv_of_state
    · rw [hrun]
      intro hc
      cases hc
    · exact hinv.mkeys d
    · exact hinv
  | threw d diag =>
    rw [threw_state]
    by_cases hrun : (getDriver st d).state = DState.running
    · rw [if_pos hrun]
      apply setDriver_inv_of_state
      · rw [hrun]
        intro hc
        cases hc
      · exact hinv.mkeys d
      · exact hinv
    · rw [if_neg hrun]
      exact setDriver_inv_keepfields _ _ _ rfl rfl rfl rfl hinv
  | done d hd2 hs2 =>
    exact startSomeActions_inv _ (returned_inv env st d hd2 hs2 hinv)

/-- Claim C10: from the fresh driver, in every reachable state every
ActionDriver in the pending queue has state PENDING with empty
missingDependencies, provisions and outputs — so every run begun by
startSomeActions, including a re-run of a driver promoted out of the blocked
set, starts from a clean per-run state. -/
theorem c10_pending_clean (env : Env) (maxC : Nat) (src tmp : FileId)
    (st : DriverState) (h : Reachable env (initState maxC src tmp) st) :
    ∀ d ∈ st.pendingActions, cleanDriver (getDriver st d) := by
  have hinv : Inv st := by
    induction h with
    | refl => exact initState_inv maxC src tmp
    | step hr t ih => exact turn_inv _ _ _ t ih
  exact hinv.pc

theorem c10_pending_clean_witness :
    cleanDriver (getDriver (driverStart envScan (initState 0 5 6)) 0) :=
  c10_pending_clean envScan 0 5 6 (driverStart envScan (initState 0 5 6))
    (Reachable.step Reachable.refl (Turn.startAll (initState 0 5 6))) 0 (by decide)

/-! The concurrency cap: claim C6. -/

theorem startGo_bound (l : List DriverId) : ∀ st : DriverState,
    st.activeActions.length ≤ st.maxConcurrentActions →
    (startGo st l).1.activeActions.length ≤ (startGo st l).1.maxConcurrentActions := by
  induction l with
  | nil => intro st h; exact h
  | cons d rest ih =>
    intro st h
    by_cases hc : st.activeActions.length < st.maxConcurrentActions
    · simp only [startGo, if_pos hc]
      apply ih
      simp only [startDriver, setDriver_activeActions, setDriver_maxConcurrentActions]
      simp only [List.length_append, List.length_cons, List.length_nil]
      omega
    · simp only [startGo, if_neg hc]
      exact h

theorem startSomeActions_bound (st : DriverState)
    (h : st.activeActions.length ≤ st.maxConcurrentActions) :
    (startSomeActions st).1.activeActions.length ≤
      (startSomeActions st).1.maxConcurrentActions :=
  startGo_bound _ _ h

theorem driverStart_bound (env : Env) (st : DriverState) (h : ActiveBound st) :
    ActiveBound (driverStart env st) := by
  unfold ActiveBound at h ⊢
  unfold driverStart
  apply startSomeActions_bound
  unfold scanForActions
  rw [queueScanned_active, queueScanned_max]
  exact h

theorem doneCallback_bound (env : Env) (st : DriverState) (d : DriverId)
    (h : ActiveBound st) : ActiveBound (doneCallback env st d).1 := by
  unfold ActiveBound at h ⊢
  unfold doneCallback
  apply startSomeActions_bound
  rw [returned_active, returned_max]
  exact le_trans (List.erase_sublist d st.activeActions).length_le h

theorem turn_active_bound (env : Env) (st st' : DriverState) (t : Turn env st st')
    (h : ActiveBound st) : ActiveBound st' := by
  cases t with
  | startAll => exact driverStart_bound env st h
  | addFac fac ids => exact h
  | find _ d id title r h2 =>
    rcases (findProvider_ok st st' d id title r h2).2 with ⟨-, -, rfl⟩ | ⟨f, -, -, rfl⟩
    · exact h
    · exact h
  | prov _ d f es h2 =>
    obtain ⟨-, rfl⟩ := provide_ok st st' d f es h2
    exact h
  | out _ d b f h2 =>
    obtain ⟨-, rfl⟩ := newOutput_ok env st st' d b f h2
    exact h
  | logTurn _ d t h2 =>
    obtain ⟨-, rfl⟩ := logText_ok st st' d t h2
    exact h
  | succ _ d b h2 =>
    obtain ⟨-, -, rfl, -⟩ := success_ok st st' d b h2
    exact h
  | pass _ d b h2 =>
    obtain ⟨-, -, rfl, -⟩ := passed_ok st st' d b h2
    exact h
  | fail _ d b h2 =>
    obtain ⟨-, rfl, -⟩ := failed_ok st st' d b h2
    exact h
  | threw d diag =>
    unfold ActiveBound
    rw [threw_state]
    split <;> exact h
  | done d hd hs => exact doneCallback_bound env st d h

/-- Claim C6: from the fresh driver (empty collections) with any positive
maxConcurrentActions, every state reachable by event-loop turns (starts,
BuildContext calls, exceptions, completion callbacks) keeps the size of the
active set at or below maxConcurrentActions; in particular the bound holds at
every event-loop quiescence. -/
theorem c6_active_bounded (env : Env) (maxC : Nat) (src tmp : FileId) (st : DriverState)
    (hpos : 0 < maxC) (h : Reachable env (initState maxC src tmp) st) :
    st.activeActions.length ≤ st.maxConcurrentActions := by
  induction h with
  | refl => simp [initState]
  | step hr t ih => exact turn_active_bound env _ _ t ih

theorem c6_active_bounded_witness :
    (driverStart envScan (initState 1 5 6)).activeActions.length ≤
      (driverStart envScan (initState 1 5 6)).maxConcurrentActions :=
  c6_active_bounded envScan 1 5 6 (driverStart envScan (initState 1 5 6)) (by decide)
    (Reachable.step Reachable.refl (Turn.startAll (initState 1 5 6)))

/-! Claim theorem for rollback. -/

/-- Claim C2: a driver finalized with non-empty missingDependencies, whatever
outcome it reported, is rolled back in full: the EntityIndex is unchanged, its
provisions and outputs are discarded, the EventGroup is cancelled, the
Dashboard task is set BLOCKED, the state returns to PENDING, and the driver
moves into the blocked set with one forward edge per missing entity id. -/
theorem c2_rollback_total (env : Env) (st : DriverState) (d : DriverId)
    (hmiss : (getDriver st d).missingDependencies ≠ []) :
    (returned env st d).1.entityMap = st.entityMap ∧
    (getDriver (returned env st d).1 d).state = DState.pending ∧
    (getDriver (returned env st d).1 d).provisions = [] ∧
    (getDriver (returned env st d).1 d).outputs = [] ∧
    (getDriver (returned env st d).1 d).task = TaskState.blocked ∧
    (getDriver (returned env st d).1 d).missingDependencies =
      (getDriver st d).missingDependencies ∧
    (returned env st d).2 = [Event.cancelGroup d] ∧
    (returned env st d).1.blockedActionPtrs = st.blockedActionPtrs ++ [d] ∧
    (returned env st d).1.blockedActions =
      st.blockedActions ++ (getDriver st d).missingDependencies.map (fun p => (p.1, d)) ∧
    (returned env st d).1.activeActions = st.activeActions.erase d ∧
    (returned env st d).1.pendingActions = st.pendingActions := by
  have h' : ¬((lookupA st.drivers d).getD default).missingDependencies = [] := hmiss
  simp [returned, h', getDriver, setDriver, lookupA_insertA_self]

theorem c2_rollback_total_witness :
    (returned envNone exRollSt 0).1.entityMap = exRollSt.entityMap ∧
    (getDriver (returned envNone exRollSt 0).1 0).state = DState.pending ∧
    (getDriver (returned envNone exRollSt 0).1 0).provisions = [] ∧
    (getDriver (returned envNone exRollSt 0).1 0).outputs = [] ∧
    (getDriver (returned envNone exRollSt 0).1 0).task = TaskState.blocked ∧
    (getDriver (returned envNone exRollSt 0).1 0).missingDependencies =
      (getDriver exRollSt 0).missingDependencies ∧
    (returned envNone exRollSt 0).2 = [Event.cancelGroup 0] ∧
    (returned envNone exRollSt 0).1.blockedActionPtrs = exRollSt.blockedActionPtrs ++ [0] ∧
    (returned envNone exRollSt 0).1.blockedActions =
      exRollSt.blockedActions ++
        (getDriver exRollSt 0).missingDependencies.map (fun p => (p.1, 0)) ∧
    (returned envNone exRollSt 0).1.activeActions = exRollSt.activeActions.erase 0 ∧
    (returned envNone exRollSt 0).1.pendingActions = exRollSt.pendingActions :=
  c2_rollback_total envNone exRollSt 0 (by decide)

end Ekam
